import Mathlib

/-!
PDDL parser: semantic checks of `pddl_semantics.cpp`

A shallow embedding of the AST of `pddl_ast.h` and of the semantic actions of
`pddl_semantics.cpp`, followed by theorems about them.

Conventions of the embedding:

* `std::string` is `String`, `std::vector` is `List`, `std::pair` is `×`.
* A function that throws returns `Except PddlException _`.
* `check_type` recurses without a measure in the source; here it takes a
  `fuel` argument and returns `none` when the fuel runs out.  Everything that
  calls it returns an `Option` as well, `none` meaning "did not return within
  the fuel".
* An output parameter (`bound_vars`, `warnings`) is returned as part of the
  result.
-/

namespace Pddl

/-! ## The AST (`pddl_ast.h`) -/

abbrev Atom := String
abbrev pair_type := String × String
abbrev pairs_type := List pair_type
abbrev type_list := List String
abbrev pair_multi_const := type_list × String
abbrev pairs_multi_consts := List pair_multi_const
abbrev pair_strings_type := List String × List String
abbrev string_pair_type := String × String
abbrev string_pairs_type := List string_pair_type
abbrev predicate_type := String × string_pairs_type

/-- The source position carried by every exception (`iterator_type`); the checks
only pass it on. -/
abbrev iterator_type := Nat

inductive ExpressionType where
  | BOOL
  | NUMERIC_COMP
  | PREDICATE
  | NUMERIC
  | NUMERIC_CHANGE
  | VALUE
  | ATOM
  | DURATIVE
  | QUANTIFIED
  | COND_EFFECT
  | UNKNOWN
  deriving DecidableEq, Repr

mutual
/-- The struct `Expression`: a kind tag and a payload. -/
inductive Expression where
  | mk (type : ExpressionType) (expression : expression_t)
/-- The variant `expression_t` over `Atom`, `Predicate` and `QuantifiedFormula`. -/
inductive expression_t where
  | atom (a : Atom)
  | predicate (p : Predicate)
  | quantified (f : QuantifiedFormula)
/-- The struct `Predicate`: a function name and its arguments. -/
inductive Predicate where
  | mk (function : Atom) (arguments : List Expression)
/-- The struct `QuantifiedFormula`. -/
inductive QuantifiedFormula where
  | mk (quantifier : Atom) (args : string_pairs_type) (sub_expr : Expression)
end

def Expression.type : Expression → ExpressionType
  | .mk t _ => t

def Expression.expression : Expression → expression_t
  | .mk _ e => e

def Predicate.function : Predicate → Atom
  | .mk f _ => f

def Predicate.arguments : Predicate → List Expression
  | .mk _ a => a

def QuantifiedFormula.quantifier : QuantifiedFormula → Atom
  | .mk q _ _ => q

def QuantifiedFormula.args : QuantifiedFormula → string_pairs_type
  | .mk _ a _ => a

def QuantifiedFormula.sub_expr : QuantifiedFormula → Expression
  | .mk _ _ e => e

structure Function where
  name : String
  object_params : string_pairs_type

structure Action where
  name : String
  action_params : string_pairs_type
  duration : Expression
  precondition : Expression
  effect : Expression
  cond_breakup : Expression
  temp_breakup : Expression

structure Domain where
  name : String
  requirements : List String
  types : pairs_type
  constants : pairs_multi_consts
  predicates : List predicate_type
  functions : List Function
  actions : List Action

/-- Modelled from the spec: the exception classes of `pddl_exception.h`, which is
not among the sources.  Each error carries its kind (the class thrown), a
message and a source position. -/
inductive PddlException where
  | PddlTypeException (msg : String) (pos : iterator_type)
  | PddlPredicateException (msg : String) (pos : iterator_type)
  | PddlConstantException (msg : String) (pos : iterator_type)
  | PddlParameterException (msg : String) (pos : iterator_type)
  | PddlExpressionException (msg : String) (pos : iterator_type)
  deriving DecidableEq, Repr

open PddlException

/-! ## `semantics_utils` -/

/-- The requirement names that switch typing on. -/
def typing_reqs : List String := ["typing", "adl", "ucpop"]

/-- `semantics_utils::typing_required`. -/
def typing_required (d : Domain) : Bool :=
  typing_reqs.any fun type_req => d.requirements.contains type_req

/-- `semantics_utils::check_type_vs_requirement`. -/
def check_type_vs_requirement (wh : iterator_type) (typing_required : Bool) (type : String) :
    Except PddlException Unit :=
  if type = "" ∧ typing_required = true then
    .error (PddlTypeException "Missing type." wh)
  else if type ≠ "" ∧ typing_required = false then
    .error (PddlTypeException "Requirement typing disabled, unexpected type found." wh)
  else
    .ok ()

/-! ## `ActionSemantics::check_type` -/

/-- `ActionSemantics::check_type`; `none` when `fuel` calls do not suffice. -/
def check_type : Nat → iterator_type → String → String → Domain → Option Bool
  | 0, _, _, _, _ => none
  | fuel + 1, wh, got, expected, domain =>
    if got ≠ expected then
      match domain.types.find? (fun p => p.1 == got) with
      | none => some false
      | some generalized => check_type fuel wh generalized.2 expected domain
    else
      some true

/-! ## `ActionSemantics::check_action_condition` and `check_action_predicate` -/

/-- The lambda given to `std::find_if` over `domain.constants` (lines 245-257),
together with the search itself: the groups are visited in order until one
contains `curr_arg` with a conforming type.  Returns whether a group matched,
and the final values of `constant_found` and `arg_type`. -/
def constant_match (fuel : Nat) (wh : iterator_type) (domain : Domain) (expected : String)
    (curr_arg : Atom) : pairs_multi_consts → Bool → String → Option (Bool × Bool × String)
  | [], constant_found, arg_type => some (false, constant_found, arg_type)
  | c :: cs, constant_found, arg_type =>
    if c.1.contains curr_arg then
      match check_type fuel wh c.2 expected domain with
      | none => none
      | some true => some (true, true, arg_type ++ " " ++ c.2)
      | some false => constant_match fuel wh domain expected curr_arg cs true (arg_type ++ " " ++ c.2)
    else
      constant_match fuel wh domain expected curr_arg cs constant_found arg_type

/-- `std::string::front`; `none` on the empty string, where the source reads the
terminator of the string (which is not a question mark). -/
def front (s : String) : Option Char := s.data.head?

/-- `std::string::substr(pos, npos)`: the string without its first `pos`
characters. -/
def substr (s : String) (pos : Nat) : String := String.mk (s.data.drop pos)

/-- The lookup of a variable argument (lines 265-283): first in `bound_vars`,
then in the parameters of the action.  Returns the type of the entry found. -/
def variable_type (wh : iterator_type) (curr_action : Action) (bound_vars : string_pairs_type)
    (curr_arg : Atom) : Except PddlException String :=
  match bound_vars.find? (fun c => c.1 == substr curr_arg 1) with
  | none =>
    match curr_action.action_params.find? (fun c => c.1 == substr curr_arg 1) with
    | none => .error (PddlParameterException ("Unknown Parameter " ++ curr_arg) wh)
    | some parameter_match => .ok parameter_match.2
  | some bound_vars_match => .ok bound_vars_match.2

/-- The declared type `defined_pred->second[i].second` of argument `i`.  The index
is in range wherever the source evaluates it, the sizes having been compared. -/
def declared_type (defined_pred : predicate_type) (i : Nat) : String :=
  (defined_pred.2.getD i ("", "")).2

/-- The message of the `PddlTypeException` of lines 288-290. -/
def type_mismatch_message (i : Nat) (defined_pred : predicate_type) (arg_type : String) :
    String :=
  "Type missmatch: Argument " ++ toString i ++ " of " ++ defined_pred.1 ++ " expects "
    ++ declared_type defined_pred i ++ " but got " ++ arg_type

/-- The body of the loop over the arguments of a predicate (lines 235-293), for
the argument at index `i`. -/
def check_argument (fuel : Nat) (wh : iterator_type) (domain : Domain) (curr_action : Action)
    (bound_vars : string_pairs_type) (typing_enabled : Bool) (defined_pred : predicate_type)
    (i : Nat) (arg : Expression) : Option (Except PddlException Unit) :=
  match arg.expression with
  | .atom curr_arg =>
    let expected := declared_type defined_pred i
    let resolved : Option (Except PddlException (Bool × String)) :=
      if front curr_arg ≠ some '?' then
        match constant_match fuel wh domain expected curr_arg domain.constants false "" with
        | none => none
        | some (true, _, arg_type) => some (.ok (false, arg_type))
        | some (false, constant_found, arg_type) =>
          if constant_found = false then
            some (.error (PddlConstantException ("Unknown constant " ++ curr_arg) wh))
          else
            some (.ok (true, arg_type))
      else
        match variable_type wh curr_action bound_vars curr_arg with
        | .error e => some (.error e)
        | .ok arg_type =>
          match check_type fuel wh arg_type expected domain with
          | none => none
          | some conforms => some (.ok (!conforms, arg_type))
    match resolved with
    | none => none
    | some (.error e) => some (.error e)
    | some (.ok (is_type_error, arg_type)) =>
      if typing_enabled = true ∧ is_type_error = true then
        some (.error (PddlTypeException (type_mismatch_message i defined_pred arg_type) wh))
      else
        some (.ok ())
  | _ => some (.error (PddlPredicateException "Unexpected nested predicate." wh))

/-- The loop `for (size_t i = 0; i < pred.arguments.size(); i++)` (line 234),
from index `i` on, over the arguments not yet visited. -/
def check_arguments (fuel : Nat) (wh : iterator_type) (domain : Domain) (curr_action : Action)
    (bound_vars : string_pairs_type) (typing_enabled : Bool) (defined_pred : predicate_type) :
    Nat → List Expression → Option (Except PddlException Unit)
  | _, [] => some (.ok ())
  | i, arg :: rest =>
    match check_argument fuel wh domain curr_action bound_vars typing_enabled defined_pred i arg with
    | some (.ok ()) =>
      check_arguments fuel wh domain curr_action bound_vars typing_enabled defined_pred (i + 1) rest
    | r => r

mutual
/-- `ActionSemantics::check_action_condition`; returns the final `bound_vars`. -/
def check_action_condition (fuel : Nat) (wh : iterator_type) (domain : Domain)
    (curr_action : Action) :
    Expression → string_pairs_type → Option (Except PddlException string_pairs_type)
  | .mk _ (.atom a), _ =>
    some (.error (PddlExpressionException ("Unexpected Atom in expression: " ++ a) wh))
  | .mk _ (.quantified (.mk _ args sub_expr)), bound_vars =>
    check_action_condition fuel wh domain curr_action sub_expr (bound_vars ++ args)
  | .mk type (.predicate pred), bound_vars =>
    check_action_predicate fuel wh domain curr_action pred type bound_vars
/-- `ActionSemantics::check_action_predicate`; returns the final `bound_vars`. -/
def check_action_predicate (fuel : Nat) (wh : iterator_type) (domain : Domain)
    (curr_action : Action) :
    Predicate → ExpressionType → string_pairs_type →
      Option (Except PddlException string_pairs_type)
  | .mk function arguments, type, bound_vars =>
    match type with
    | .BOOL => check_sub_exprs fuel wh domain curr_action arguments bound_vars
    | .PREDICATE =>
      match domain.predicates.find? (fun p => function == p.1) with
      | none => some (.error (PddlPredicateException ("Unknown predicate: " ++ function) wh))
      | some defined_pred =>
        if defined_pred.2.length ≠ arguments.length then
          some (.error (PddlPredicateException
            ("Predicate argument length missmatch, expected " ++ toString defined_pred.2.length
              ++ " but got " ++ toString arguments.length) wh))
        else
          match check_arguments fuel wh domain curr_action bound_vars (typing_required domain)
              defined_pred 0 arguments with
          | none => none
          | some (.error e) => some (.error e)
          | some (.ok ()) => some (.ok bound_vars)
    | _ => some (.ok bound_vars)
/-- The loop of the case `ExpressionType::BOOL` (lines 210-213). -/
def check_sub_exprs (fuel : Nat) (wh : iterator_type) (domain : Domain)
    (curr_action : Action) :
    List Expression → string_pairs_type → Option (Except PddlException string_pairs_type)
  | [], bound_vars => some (.ok bound_vars)
  | sub_expr :: rest, bound_vars =>
    match check_action_condition fuel wh domain curr_action sub_expr bound_vars with
    | some (.ok bound_vars1) => check_sub_exprs fuel wh domain curr_action rest bound_vars1
    | r => r
end

/-! ## The semantic actions -/

/-- `TypeSemantics::operator()`. -/
def TypeSemantics (wh : iterator_type) (parsed : pair_type) (domain : Domain) :
    Except PddlException pair_type :=
  if typing_required domain = false then
    .error (PddlTypeException "Requirement typing disabled, unexpected type found." wh)
  else
    .ok parsed

/-- `ParamTransformer::operator()`; returns the pair yielded and the new
`target`.  `none` stands for `back()` on an empty vector. -/
def ParamTransformer (_wh : iterator_type) (parsed : pair_strings_type)
    (target : string_pairs_type) : Option (pair_type × string_pairs_type) :=
  let target1 :=
    if parsed.2.isEmpty then
      target ++ parsed.1.map (fun s => (s, ""))
    else
      parsed.2.foldl (fun acc variant_type => acc ++ parsed.1.map (fun s => (s, variant_type)))
        target
  match target1.getLast? with
  | none => none
  | some res => some (res, target1.dropLast)

/-- The three nested loops of `ConstantSemantics` (lines 110-121), which append
the "Ambiguous type" warnings. -/
def ambiguity_warnings (parsed : pair_multi_const) (domain : Domain) (warnings : List String) :
    List String :=
  parsed.1.foldl (fun w constant =>
    domain.constants.foldl (fun w dom_constants =>
      dom_constants.1.foldl (fun w c =>
        if c = constant ∧ parsed.2 ≠ dom_constants.2 then
          w ++ ["Ambiguous type: " ++ constant ++ " type " ++ parsed.2 ++ " and " ++ dom_constants.2]
        else w) w) w) warnings

/-- `ConstantSemantics::operator()`; returns the group and the new `warnings`. -/
def ConstantSemantics (wh : iterator_type) (parsed : pair_multi_const) (domain : Domain)
    (warnings : List String) : Except PddlException (pair_multi_const × List String) :=
  let typing_enabled := typing_required domain
  if typing_enabled = true ∧
      domain.types.find? (fun p => p.1 == parsed.2 || p.2 == parsed.2) = none then
    .error (PddlTypeException ("Unknown type: " ++ parsed.2) wh)
  else
    match check_type_vs_requirement wh typing_enabled parsed.2 with
    | .error e => .error e
    | .ok () => .ok (parsed, ambiguity_warnings parsed domain warnings)

/-- The loop over the parameters of `ActionSemantics::operator()`
(lines 131-144). -/
def check_action_params (wh : iterator_type) (typing_enabled : Bool) (domain : Domain) :
    string_pairs_type → Except PddlException Unit
  | [] => .ok ()
  | action_param :: rest =>
    if typing_enabled = true ∧
        domain.types.find? (fun p => p.1 == action_param.2 || p.2 == action_param.2) = none then
      .error (PddlTypeException ("Unknown type: " ++ action_param.1 ++ " - " ++ action_param.2) wh)
    else
      match check_type_vs_requirement wh typing_enabled action_param.2 with
      | .error e => .error e
      | .ok () => check_action_params wh typing_enabled domain rest

/-- `ActionSemantics::operator()`. -/
def ActionSemantics (fuel : Nat) (wh : iterator_type) (parsed : Action) (domain : Domain) :
    Option (Except PddlException Action) :=
  match check_action_params wh (typing_required domain) domain parsed.action_params with
  | .error e => some (.error e)
  | .ok () =>
    match check_action_condition fuel wh domain parsed parsed.precondition [] with
    | none => none
    | some (.error e) => some (.error e)
    | some (.ok bound_vars) =>
      match check_action_condition fuel wh domain parsed parsed.effect bound_vars with
      | none => none
      | some (.error e) => some (.error e)
      | some (.ok _) => some (.ok parsed)

/-! ## `PddlParser` (`pddl_parser.cpp`)

An iterator into the input is the offset of a character, a natural number; every
`Char` of the text stands for one `char` of the `std::string`.  The helpers of
`boost/spirit/home/support/iterators/line_pos_iterator.hpp` are library code; they
are transcribed here as Boost defines them. -/

structure Problem where
  name : String
  domain_name : String
  objects : pairs_multi_consts
  init : List Expression
  goal : Expression

/-- The character an iterator points at (`*i`). -/
def deref (text : String) (i : Nat) : Char :=
  text.data.getD i (Char.ofNat 0)

/-- A carriage return or a line feed. -/
def is_line_break (c : Char) : Bool :=
  c == '\r' || c == '\n'

/-- The loop of `boost::spirit::get_line_start`, over `count` characters from `i`
on; returns `latest` and `prev_was_newline`. -/
def get_line_start_loop (text : String) : Nat → Nat → Nat → Bool →
    Nat × Bool
  | 0, _, latest, prev_was_newline => (latest, prev_was_newline)
  | count + 1, i, latest, prev_was_newline =>
    get_line_start_loop text count (i + 1) (if prev_was_newline then i else latest)
      (is_line_break (deref text i))

/-- `boost::spirit::get_line_start(lower_bound, current)`, for
`lower_bound ≤ current`. -/
def get_line_start (text : String) (lower_bound current : Nat) : Nat :=
  let r := get_line_start_loop text (current - lower_bound) lower_bound lower_bound false
  if r.2 then current else r.1

/-- The loop of `boost::spirit::get_line_end`, over `count` characters from `i` on. -/
def get_line_end_loop (text : String) : Nat → Nat → Nat
  | 0, i => i
  | count + 1, i =>
    if is_line_break (deref text i) then i else get_line_end_loop text count (i + 1)

/-- `boost::spirit::get_line_end(current, upper_bound)`, for
`current ≤ upper_bound`. -/
def get_line_end (text : String) (current upper_bound : Nat) : Nat :=
  get_line_end_loop text (upper_bound - current) current

/-- The loop of `boost::spirit::get_column`, over `count` characters from `i` on. -/
def get_column_loop (text : String) (tabs : Nat) : Nat → Nat → Nat → Nat
  | 0, _, column => column
  | count + 1, i, column =>
    get_column_loop text tabs count (i + 1)
      (if deref text i = '\t' then column + (tabs - (column - 1) % tabs) else column + 1)

/-- `boost::spirit::get_column(lower_bound, current, tabs)`. -/
def get_column (text : String) (lower_bound current : Nat) (tabs : Nat) : Nat :=
  get_column_loop text tabs (current - get_line_start text lower_bound current)
    (get_line_start text lower_bound current) 1

/-- The line counter of a `line_pos_iterator` that was advanced over `count`
characters from `i` on (`line_pos_iterator::increment`); `prev` is the character
read before. -/
def get_line_loop (text : String) : Nat → Nat → Nat → Char → Nat
  | 0, _, line, _ => line
  | count + 1, i, line, prev =>
    get_line_loop text count (i + 1)
      (if deref text i = '\r' then (if prev ≠ '\n' then line + 1 else line)
       else if deref text i = '\n' then (if prev ≠ '\r' then line + 1 else line)
       else line)
      (deref text i)

/-- `boost::spirit::get_line(current)` for an iterator that started at the beginning
of the text with line 1. -/
def get_line (text : String) (current : Nat) : Nat :=
  get_line_loop text current 0 1 (Char.ofNat 0)

/-- The test `std::strchr("\r\n", c)` of `getErrorContext`: `strchr` also finds the
terminating null character of the string it searches. -/
def strchr_line_break (c : Char) : Bool :=
  c == '\r' || c == '\n' || c == Char.ofNat 0

/-- The loop `while (!line.empty() && std::strchr("\r\n", *line.begin()))
line.advance_begin(1)`, over a line of `count` characters that begins at `first`;
returns the new beginning of the line. -/
def advance_begin_loop (text : String) : Nat → Nat → Nat
  | 0, first => first
  | count + 1, first =>
    if strchr_line_break (deref text first) then advance_begin_loop text count (first + 1)
    else first

/-- `PddlParser::getErrorContext`.  `none` when the beginning of the line has been
advanced past `current_it`, where `std::distance` is undefined. -/
def getErrorContext (text : String) (start_it end_it current_it : iterator_type) :
    Option String :=
  let first := get_line_start text start_it current_it
  let last := get_line_end text current_it end_it
  let line_str := ((text.data.drop first).take (last - first)).map
    fun c => if c = '\t' then ' ' else c
  let header := " line:" ++ toString (get_line text current_it) ++ ", col:"
    ++ toString (get_column text first current_it 4) ++ "\n"
  let first1 := advance_begin_loop text (last - first) first
  if first1 ≤ current_it then
    some (header ++ String.mk line_str ++ "\n"
      ++ String.mk (List.replicate (current_it - first1) ' ') ++ "^ --- parsing halted here\n")
  else
    none

/-- Modelled from the spec: the exceptions of `pddl_exception.h` that the entry
points raise themselves, next to the semantic errors they pass on. -/
inductive ParserException where
  | PddlSyntaxException (msg : String) (pos : iterator_type)
  | PddlSemanticsException (e : PddlException)
  | PddlParserException (msg : String)

/-- Modelled from the spec: `PddlSemanticsException::prepend` followed by `append`
on the message of a semantic error. -/
def PddlException.decorate (before after : String) : PddlException → PddlException
  | .PddlTypeException msg pos => .PddlTypeException (before ++ msg ++ after) pos
  | .PddlPredicateException msg pos => .PddlPredicateException (before ++ msg ++ after) pos
  | .PddlConstantException msg pos => .PddlConstantException (before ++ msg ++ after) pos
  | .PddlParameterException msg pos => .PddlParameterException (before ++ msg ++ after) pos
  | .PddlExpressionException msg pos => .PddlExpressionException (before ++ msg ++ after) pos

/-- The position `pos` of a semantic error. -/
def PddlException.pos : PddlException → iterator_type
  | .PddlTypeException _ pos => pos
  | .PddlPredicateException _ pos => pos
  | .PddlConstantException _ pos => pos
  | .PddlParameterException _ pos => pos
  | .PddlExpressionException _ pos => pos

/-- What a call `phrase_parse(iter, end, g, s, attr)` can do: return `r` with the
position `iter` and the attribute, or throw an expectation failure, or throw a
semantic error from a semantic action.  The grammars of `pddl_grammar.h` are not
among the sources, so a grammar is a function from the text to such an outcome. -/
inductive phrase_parse_outcome (α : Type) where
  | returned (r : Bool) (iter : iterator_type) (attr : α) (warnings : List String)
  | expectation_failure (iter first : iterator_type) (what expectation : String)
  | semantics_exception (iter : iterator_type) (e : PddlException)

/-- The handlers shared by `parseFormula` and `parseDomain` (lines 83-105 and
127-150). -/
def parse_with_handlers {α : Type} (failed : String)
    (phrase_parse : String → phrase_parse_outcome α) (text : String) :
    Option (Except ParserException α) :=
  match phrase_parse text with
  | .expectation_failure iter first what expectation =>
    match getErrorContext text iter text.length first with
    | none => none
    | some context =>
      some (.error (.PddlSyntaxException
        ("Syntax Error: " ++ what ++ " expected " ++ expectation ++ " at " ++ context) iter))
  | .semantics_exception iter e =>
    match getErrorContext text iter text.length e.pos with
    | none => none
    | some context =>
      some (.error (.PddlSemanticsException (e.decorate "Semantic Error: " context)))
  | .returned r _ attr _ =>
    if r = false then some (.error (.PddlParserException failed)) else some (.ok attr)

/-- `PddlParser::parseFormula`. -/
def parseFormula (formula_grammar : String → phrase_parse_outcome Expression)
    (pddl_formula : String) : Option (Except ParserException Expression) :=
  parse_with_handlers "Parsing PDDL formula string failed!" formula_grammar pddl_formula

/-- `PddlParser::parseDomain`. -/
def parseDomain (domain_grammar : String → phrase_parse_outcome Domain)
    (pddl_domain : String) : Option (Except ParserException Domain) :=
  parse_with_handlers "Parsing PDDL domain string failed!" domain_grammar pddl_domain

/-- `PddlParser::parseProblem`: only the expectation failure is caught. -/
def parseProblem (problem_grammar : String → phrase_parse_outcome Problem)
    (pddl_problem : String) : Option (Except ParserException Problem) :=
  match problem_grammar pddl_problem with
  | .expectation_failure iter first what _ =>
    match getErrorContext pddl_problem iter pddl_problem.length first with
    | none => none
    | some context =>
      some (.error (.PddlSyntaxException ("Expectation failed: " ++ what ++ context) iter))
  | .semantics_exception _ e => some (.error (.PddlSemanticsException e))
  | .returned r _ attr _ =>
    if r = false then some (.error (.PddlParserException "Parsing PDDL problem string failed!"))
    else some (.ok attr)

/-! ## Relations used to state the properties -/

/-- The pairs of `domain.types` as a relation: `sub` is declared with supertype
`super`. -/
def declared_subtype (domain : Domain) (sub super : String) : Prop :=
  (sub, super) ∈ domain.types

/-- Conformance as the glossary defines it: the reflexive-transitive closure of the
declared `(subtype, supertype)` pairs. -/
def conforms (domain : Domain) : String → String → Prop :=
  Relation.ReflTransGen (declared_subtype domain)

/-- The type declarations contain no cycle. -/
def acyclic_types (domain : Domain) : Prop :=
  ∀ t, ¬ Relation.TransGen (declared_subtype domain) t t

/-- The step `check_type` takes: `super` is the supertype of the first pair of
`domain.types` whose subtype is `sub`. -/
def first_supertype (domain : Domain) (sub super : String) : Prop :=
  ∃ p, domain.types.find? (fun p => p.1 == sub) = some p ∧ p.2 = super

/-- No name is declared with two different supertypes. -/
def single_supertype (domain : Domain) : Prop :=
  ∀ p ∈ domain.types, ∀ q ∈ domain.types, p.1 = q.1 → p.2 = q.2

/-- A domain in which `a` is declared with the two supertypes `b` and `c`. -/
def dom_two_supertypes : Domain :=
  ⟨"d", ["typing"], [("a", "b"), ("a", "c")], [], [], [], []⟩

/-- A domain with the chain `a - b`, `b - c`. -/
def dom_chain : Domain :=
  ⟨"d", ["typing"], [("a", "b"), ("b", "c")], [], [], [], []⟩

/-- The domain of scenario 4: the single predicate `(p ?x)`, no typing. -/
def dom_unary : Domain :=
  ⟨"d", ["strips"], [], [], [("p", [("x", "")])], [], []⟩

/-- The domain of scenario 5: the single predicate `(p ?x ?y)`, no typing. -/
def dom_binary : Domain :=
  ⟨"d", ["strips"], [], [], [("p", [("x", ""), ("y", "")])], [], []⟩

/-- A default-constructed `Expression`: the payload is the empty `Atom`. -/
def default_expression : Expression := .mk .UNKNOWN (.atom "")

/-- An action with the parameter `?x` and the given precondition. -/
def action_with_precondition (precondition : Expression) : Action :=
  ⟨"act", [("x", "")], default_expression, precondition, default_expression,
    default_expression, default_expression⟩

/-- A typed domain with the type `thing`, as in scenario 2. -/
def dom_typed : Domain :=
  ⟨"d", ["typing"], [("thing", "")], [], [("p", [("x", "thing")])], [], []⟩

/-- What `check_action_predicate` does from the argument at index `i` on, once the
type `t` of that argument is resolved: the conformance check of `t` against the
declared type, then the arguments `post` that follow. -/
def continue_with_type (fuel : Nat) (wh : iterator_type) (domain : Domain) (curr_action : Action)
    (bound_vars : string_pairs_type) (defined_pred : predicate_type) (i : Nat) (t : String)
    (post : List Expression) : Option (Except PddlException string_pairs_type) :=
  match check_type fuel wh t (declared_type defined_pred i) domain with
  | none => none
  | some conforms =>
    if typing_required domain = true ∧ conforms = false then
      some (.error (PddlTypeException (type_mismatch_message i defined_pred t) wh))
    else
      match check_arguments fuel wh domain curr_action bound_vars (typing_required domain)
          defined_pred (i + 1) post with
      | none => none
      | some (.error e) => some (.error e)
      | some (.ok ()) => some (.ok bound_vars)

/-- A typed domain with `thing - object`, the predicate `(p ?x - thing)` and the
constant `k - thing`. -/
def dom_things : Domain :=
  ⟨"d", ["typing"], [("thing", "object"), ("object", "")], [(["k"], "thing")],
    [("p", [("x", "thing")])], [], []⟩

/-- An action whose parameter `?x` has the type `object`. -/
def action_object_param : Action :=
  ⟨"act", [("x", "object")], default_expression, default_expression, default_expression,
    default_expression, default_expression⟩

/-- An action whose parameters are `?x - thing` and `?y - object`. -/
def action_two_params : Action :=
  ⟨"act", [("x", "thing"), ("y", "object")], default_expression, default_expression,
    default_expression, default_expression, default_expression⟩

/-- A typed domain with `thing - object` and the predicate
`(r ?a - object ?b - thing)`. -/
def dom_relation : Domain :=
  ⟨"d", ["typing"], [("thing", "object"), ("object", "")], [],
    [("r", [("a", "object"), ("b", "thing")])], [], []⟩

/-- The typing rule of a declared type `t` (of a parameter or a constants group) is
violated: typing is enabled and `t` is empty or occurs in no pair of `domain.types`,
or typing is disabled and `t` is non-empty. -/
def violates_typing_rule (domain : Domain) (t : String) : Prop :=
  (typing_required domain = true ∧ (t = "" ∨ ∀ p ∈ domain.types, p.1 ≠ t ∧ p.2 ≠ t)) ∨
    (typing_required domain = false ∧ t ≠ "")

/-- The domain of `dom_typed` without the typing requirement. -/
def dom_untyped : Domain :=
  ⟨"d", ["strips"], [("thing", "")], [], [("p", [("x", "thing")])], [], []⟩

/-- The expansion of a typed-list group as the specification words it: one pair
`(n, "")` per name when there are no variant types, otherwise one pair `(n, v)` for
every variant `v` and every name `n`, variant by variant. -/
def expansion (names variants : List String) : string_pairs_type :=
  if variants = [] then names.map fun n => (n, "")
  else variants.flatMap fun v => names.map fun n => (n, v)

/-- The warnings the specification expects from `ConstantSemantics` for the group
`(names, t)`: one for each name `c` of the group, each group `g` of the domain and
each occurrence of `c` in `g` whose type differs from `t`, in this order. -/
def expected_warnings (names : type_list) (t : String) (constants : pairs_multi_consts) :
    List String :=
  names.flatMap fun c =>
    constants.flatMap fun g =>
      (g.1.filter fun c1 => c1 == c).flatMap fun _ =>
        if g.2 ≠ t then ["Ambiguous type: " ++ c ++ " type " ++ t ++ " and " ++ g.2] else []

/-- The domain of scenario 3 before the second group: the constant `a` is declared
with the type `thing`. -/
def dom_ambiguous : Domain :=
  ⟨"d", ["typing"], [("thing", "object"), ("object", "")], [(["a"], "thing")], [], [], []⟩

/-- The domain `dom_things` with a constant named like the parameter `x`. -/
def dom_shadowed : Domain :=
  ⟨"d", ["typing"], [("thing", "object"), ("object", "")], [(["x", "k"], "thing")],
    [("p", [("x", "thing")])], [], []⟩

mutual
/-- Every expression that occurs inside an expression, at any depth and under any
kind of node, the expression itself included. -/
def subexpressions : Expression → List Expression
  | .mk type (.atom a) => [.mk type (.atom a)]
  | .mk type (.quantified (.mk quantifier args sub_expr)) =>
    .mk type (.quantified (.mk quantifier args sub_expr)) :: subexpressions sub_expr
  | .mk type (.predicate (.mk function arguments)) =>
    .mk type (.predicate (.mk function arguments)) :: subexpressions_of arguments
/-- The expressions that occur inside the expressions of a list. -/
def subexpressions_of : List Expression → List Expression
  | [] => []
  | e :: es => subexpressions e ++ subexpressions_of es
end

mutual
/-- The expressions the walk of `check_action_condition` reaches: the expression
itself, what is reached in the body of a quantified formula, and what is reached in
the arguments of a Predicate node of kind BOOL. -/
def walked : Expression → List Expression
  | .mk type (.atom a) => [.mk type (.atom a)]
  | .mk type (.quantified (.mk quantifier args sub_expr)) =>
    .mk type (.quantified (.mk quantifier args sub_expr)) :: walked sub_expr
  | .mk type (.predicate (.mk function arguments)) =>
    .mk type (.predicate (.mk function arguments)) ::
      (match type with
        | .BOOL => walked_of arguments
        | _ => [])
/-- The expressions the walk reaches in the expressions of a list. -/
def walked_of : List Expression → List Expression
  | [] => []
  | e :: es => walked e ++ walked_of es
end

mutual
/-- The `args` of the quantified formulas the walk reaches, in pre-order. -/
def bound_by : Expression → string_pairs_type
  | .mk _ (.atom _) => []
  | .mk _ (.quantified (.mk _ args sub_expr)) => args ++ bound_by sub_expr
  | .mk type (.predicate (.mk _ arguments)) =>
    match type with
    | .BOOL => bound_by_of arguments
    | _ => []
/-- The `args` of the quantified formulas the walk reaches in a list. -/
def bound_by_of : List Expression → string_pairs_type
  | [] => []
  | e :: es => bound_by e ++ bound_by_of es
end

/-- The variables bound by the quantified formulas that occur anywhere inside an
expression. -/
def all_bound_by (e : Expression) : string_pairs_type :=
  (subexpressions e).flatMap fun x =>
    match x with
    | .mk _ (.quantified (.mk _ args _)) => args
    | _ => []

/-- The expression is a PREDICATE-kind Predicate node that names a declared predicate
and has as many arguments as its declaration. -/
def declared_with_arity (domain : Domain) (x : Expression) : Prop :=
  ∀ function arguments, x = .mk .PREDICATE (.predicate (.mk function arguments)) →
    ∃ defined_pred, domain.predicates.find? (fun p => function == p.1) = some defined_pred ∧
      defined_pred.2.length = arguments.length

/-- Every variable atom among the direct arguments of the PREDICATE-kind Predicate
node `x` is named like an entry of `vars` or like a parameter of the action. -/
def variables_resolve (curr_action : Action) (vars : string_pairs_type) (x : Expression) :
    Prop :=
  ∀ function arguments, x = .mk .PREDICATE (.predicate (.mk function arguments)) →
    ∀ arg ∈ arguments, ∀ type a, arg = Expression.mk type (.atom a) → front a = some '?' →
      (∃ q ∈ vars, q.1 = substr a 1) ∨ ∃ q ∈ curr_action.action_params, q.1 = substr a 1

/-- An action whose effect is the conditional effect `(when (q) (p ?x))` and whose
precondition is the empty conjunction. -/
def action_cond_effect : Action :=
  ⟨"act", [("x", "")], default_expression, .mk .BOOL (.predicate (.mk "and" [])),
    .mk .COND_EFFECT (.predicate (.mk "when"
      [.mk .PREDICATE (.predicate (.mk "q" [])),
       .mk .PREDICATE (.predicate (.mk "p" [.mk .ATOM (.atom "?x")]))])),
    default_expression, default_expression⟩

/-- An action whose precondition is the comparison `(= ?z 0)` and whose effect is
the empty conjunction. -/
def action_comparison : Action :=
  ⟨"act", [("x", "")], default_expression,
    .mk .NUMERIC_COMP (.predicate (.mk "=" [.mk .ATOM (.atom "?z"), .mk .VALUE (.atom "0")])),
    .mk .BOOL (.predicate (.mk "and" [])), default_expression, default_expression⟩

/-- An action without parameters whose precondition is
`(forall (?y - thing) (p ?y))` and whose effect is `(and (p ?y))`. -/
def action_forall : Action :=
  ⟨"act", [], default_expression,
    .mk .QUANTIFIED (.quantified (.mk "forall" [("y", "thing")]
      (.mk .PREDICATE (.predicate (.mk "p" [.mk .ATOM (.atom "?y")]))))),
    .mk .BOOL (.predicate (.mk "and"
      [.mk .PREDICATE (.predicate (.mk "p" [.mk .ATOM (.atom "?y")]))])),
    default_expression, default_expression⟩

/-- A problem with an empty initial state. -/
def problem_empty : Problem :=
  ⟨"pr", "d", [], [], .mk .BOOL (.predicate (.mk "and" []))⟩

/-- A text of two characters, a null character followed by `x`. -/
def text_nul_x : String := String.mk [Char.ofNat 0, 'x']

/-- The formula `(p ?y)`. -/
def p_of_y : Expression :=
  .mk .PREDICATE (.predicate (.mk "p" [.mk .ATOM (.atom "?y")]))

/-- The formula `(forall (?y - thing) (p ?y))`. -/
def forall_y : Expression :=
  .mk .QUANTIFIED (.quantified (.mk "forall" [("y", "thing")] p_of_y))

/-- An action without parameters with the given precondition and effect. -/
def action_of (precondition effect : Expression) : Action :=
  ⟨"act", [], default_expression, precondition, effect, default_expression,
    default_expression⟩

/-- The action with the precondition `(and (forall (?y - thing) (p ?y)) (p ?y))` and
the effect `(p ?y)`: `?y` is used after the quantified formula that binds it. -/
def action_leak : Action :=
  action_of (.mk .BOOL (.predicate (.mk "and" [forall_y, p_of_y]))) p_of_y

/-- The action with the precondition `(and (p ?y) (forall (?y - thing) (p ?y)))`:
`?y` is used in an earlier sibling of the quantified formula. -/
def action_use_before_sibling : Action :=
  action_of (.mk .BOOL (.predicate (.mk "and" [p_of_y, forall_y])))
    (.mk .BOOL (.predicate (.mk "and" [])))

/-- The action with the precondition `(p ?y)` and the effect
`(forall (?y - thing) (p ?y))`: `?y` is used before the effect binds it. -/
def action_use_before_effect : Action :=
  action_of p_of_y forall_y

/-- The `args` of a quantified formula; nothing for any other expression. -/
def formula_args : Expression → string_pairs_type
  | .mk _ (.quantified (.mk _ args _)) => args
  | _ => []

/-- The chain `check_type` follows from `got`: the name reached after `k` steps, each
step taking the supertype of the first pair of `domain.types` whose subtype is the
current name; `none` when a name on the way is the subtype of no pair. -/
def supertype_chain (domain : Domain) : String → Nat → Option String
  | got, 0 => some got
  | got, k + 1 =>
    match domain.types.find? (fun p => p.1 == got) with
    | none => none
    | some generalized => supertype_chain domain generalized.2 k

/-- A domain whose only type declaration is `a - a`. -/
def dom_self_cycle : Domain :=
  ⟨"d", ["typing"], [("a", "a")], [], [], [], []⟩

/-- A domain with the type declarations `a - b` and `b - a`. -/
def dom_two_cycle : Domain :=
  ⟨"d", ["typing"], [("a", "b"), ("b", "a")], [], [], [], []⟩

/-- The error is one of the four kinds other than `PddlTypeException`. -/
def not_a_type_error (e : PddlException) : Prop :=
  (∃ msg pos, e = .PddlExpressionException msg pos) ∨
  (∃ msg pos, e = .PddlPredicateException msg pos) ∨
  (∃ msg pos, e = .PddlConstantException msg pos) ∨
  (∃ msg pos, e = .PddlParameterException msg pos)

/-- An action with the untyped parameter `?x` and the constant argument `k`. -/
def action_untyped : Action :=
  ⟨"act", [("x", "")], default_expression,
    .mk .BOOL (.predicate (.mk "and"
      [.mk .PREDICATE (.predicate (.mk "p" [.mk .ATOM (.atom "?x")])),
       .mk .PREDICATE (.predicate (.mk "p" [.mk .ATOM (.atom "k")]))])),
    default_expression, default_expression, default_expression⟩

/-- The domain `dom_untyped` with the constant `k` declared without a type. -/
def dom_untyped_constant : Domain :=
  ⟨"d", ["strips"], [("thing", "")], [(["k"], "")], [("p", [("x", "thing")])], [], []⟩

/-- A typed domain in which the constant `k` is declared in three groups, of the
types `other`, `thing` and `object`; the predicate `(p ?x - thing)`. -/
def dom_three_groups : Domain :=
  ⟨"d", ["typing"], [("thing", "object"), ("other", "object"), ("object", "")],
    [(["k"], "other"), (["j", "k"], "thing"), (["k"], "object")],
    [("p", [("x", "thing")])], [], []⟩

/-- An action without parameters whose precondition is
`(forall (?y - thing) (p ?y))` and whose effect is the bare atom `x`. -/
def action_atom_effect : Action :=
  action_of forall_y (.mk .ATOM (.atom "x"))

/-- C1: `typing_required` is true exactly when the requirements contain one of the
strings "typing", "adl", "ucpop"; it is true for ["adl"] and ["ucpop"] and false
for ["strips"], ["Typing"] and []. -/
theorem typing_required_iff :
    (∀ d : Domain, typing_required d = true ↔
      ("typing" ∈ d.requirements ∨ "adl" ∈ d.requirements ∨ "ucpop" ∈ d.requirements)) ∧
    (∀ n t c p f a, typing_required ⟨n, ["adl"], t, c, p, f, a⟩ = true) ∧
    (∀ n t c p f a, typing_required ⟨n, ["ucpop"], t, c, p, f, a⟩ = true) ∧
    (∀ n t c p f a, typing_required ⟨n, ["strips"], t, c, p, f, a⟩ = false) ∧
    (∀ n t c p f a, typing_required ⟨n, ["Typing"], t, c, p, f, a⟩ = false) ∧
    (∀ n t c p f a, typing_required ⟨n, [], t, c, p, f, a⟩ = false) := by
  refine ⟨?_, ?_, ?_, ?_, ?_, ?_⟩
  · intro d
    simp [typing_required, typing_reqs]
  all_goals
    intros
    simp [typing_required, typing_reqs]

/-! ## Properties of `check_type` -/

theorem first_supertype_declared {domain : Domain} {a b : String}
    (h : first_supertype domain a b) : declared_subtype domain a b := by
  obtain ⟨p, hp, hb⟩ := h
  have hmem := List.mem_of_find?_eq_some hp
  have hfst := List.find?_some hp
  simp only [beq_iff_eq] at hfst
  have : p = (a, b) := Prod.ext hfst hb
  simpa [declared_subtype, this] using hmem

theorem declared_first_supertype {domain : Domain} (hs : single_supertype domain) {a b : String}
    (h : declared_subtype domain a b) : first_supertype domain a b := by
  cases hf : domain.types.find? (fun p => p.1 == a) with
  | none =>
    rw [List.find?_eq_none] at hf
    exact absurd (by simp) (hf (a, b) h)
  | some p =>
    refine ⟨p, hf, ?_⟩
    have hmem := List.mem_of_find?_eq_some hf
    have hfst := List.find?_some hf
    simp only [beq_iff_eq] at hfst
    exact hs p hmem (a, b) h hfst

theorem check_type_sound (domain : Domain) (wh : iterator_type) (expected : String) :
    ∀ (fuel : Nat) (got : String), check_type fuel wh got expected domain = some true →
      Relation.ReflTransGen (first_supertype domain) got expected := by
  intro fuel
  induction fuel with
  | zero => intro got h; simp [check_type] at h
  | succ n ih =>
    intro got h
    unfold check_type at h
    by_cases hge : got = expected
    · subst hge; exact Relation.ReflTransGen.refl
    · simp only [ne_eq, hge, not_false_eq_true, if_true] at h
      cases hf : domain.types.find? (fun p => p.1 == got) with
      | none => simp [hf] at h
      | some p =>
        simp only [hf] at h
        exact Relation.ReflTransGen.head ⟨p, hf, rfl⟩ (ih _ h)

theorem check_type_complete (domain : Domain) (wh : iterator_type) (got expected : String)
    (h : Relation.ReflTransGen (first_supertype domain) got expected) :
    ∀ (fuel : Nat) (b : Bool), check_type fuel wh got expected domain = some b → b = true := by
  induction h using Relation.ReflTransGen.head_induction_on with
  | refl =>
    intro fuel b hb
    cases fuel with
    | zero => simp [check_type] at hb
    | succ n => simpa [check_type] using hb.symm
  | @head x y hstep _ ih =>
    intro fuel b hb
    cases fuel with
    | zero => simp [check_type] at hb
    | succ n =>
      unfold check_type at hb
      by_cases hge : x = expected
      · simpa [hge] using hb.symm
      · obtain ⟨p, hp, hy⟩ := hstep
        simp only [ne_eq, hge, not_false_eq_true, if_true, hp] at hb
        rw [hy] at hb
        exact ih n b hb

theorem check_type_returns_aux (domain : Domain) (wh : iterator_type) (expected : String)
    (hac : ∀ t, ¬ Relation.TransGen (first_supertype domain) t t) :
    ∀ (fuel : Nat) (seen : List String) (got : String), seen.Nodup →
      (∀ s ∈ seen, s ∈ domain.types.map Prod.fst) →
      (∀ s ∈ seen, Relation.TransGen (first_supertype domain) s got) →
      domain.types.length + 1 ≤ fuel + seen.length →
      ∃ b, check_type fuel wh got expected domain = some b := by
  have hbound : ∀ seen : List String, seen.Nodup →
      (∀ s ∈ seen, s ∈ domain.types.map Prod.fst) → seen.length ≤ domain.types.length := by
    intro seen hnd hsub
    have := (hnd.subperm hsub).length_le
    simpa using this
  intro fuel
  induction fuel with
  | zero =>
    intro seen got hnd hsub _ hlen
    have := hbound seen hnd hsub
    omega
  | succ n ih =>
    intro seen got hnd hsub hreach hlen
    unfold check_type
    by_cases hge : got = expected
    · exact ⟨true, by simp [hge]⟩
    · simp only [ne_eq, hge, not_false_eq_true, if_true]
      cases hf : domain.types.find? (fun p => p.1 == got) with
      | none => exact ⟨false, rfl⟩
      | some p =>
        have hmem := List.mem_of_find?_eq_some hf
        have hfst := List.find?_some hf
        simp only [beq_iff_eq] at hfst
        have hstep : first_supertype domain got p.2 := ⟨p, hf, rfl⟩
        have hnot : got ∉ seen := fun hin => hac got (hreach got hin)
        have hnd1 : (got :: seen).Nodup := List.nodup_cons.mpr ⟨hnot, hnd⟩
        have hsub1 : ∀ s ∈ got :: seen, s ∈ domain.types.map Prod.fst := by
          intro s hs
          rcases List.mem_cons.mp hs with h | h
          · subst h; exact List.mem_map.mpr ⟨p, hmem, hfst⟩
          · exact hsub s h
        have hreach1 : ∀ s ∈ got :: seen, Relation.TransGen (first_supertype domain) s p.2 := by
          intro s hs
          rcases List.mem_cons.mp hs with h | h
          · subst h; exact Relation.TransGen.single hstep
          · exact Relation.TransGen.tail (hreach s h) hstep
        have hlen1 : domain.types.length + 1 ≤ n + (got :: seen).length := by
          simp only [List.length_cons]; omega
        simpa using ih (got :: seen) p.2 hnd1 hsub1 hreach1 hlen1

theorem acyclic_of_rank (domain : Domain) (rank : String → Nat)
    (h : ∀ p ∈ domain.types, rank p.1 < rank p.2) : acyclic_types domain := by
  have key : ∀ x y, Relation.TransGen (declared_subtype domain) x y → rank x < rank y := by
    intro x y hxy
    induction hxy with
    | single hs => exact h _ hs
    | tail _ hs ih => exact lt_trans ih (h _ hs)
  intro t ht
  exact lt_irrefl _ (key t t ht)

theorem acyclic_first_supertype {domain : Domain} (h : acyclic_types domain) :
    ∀ t, ¬ Relation.TransGen (first_supertype domain) t t := fun t ht =>
  h t (Relation.TransGen.mono (fun _ _ => first_supertype_declared) ht)

theorem check_type_returns (domain : Domain) (wh : iterator_type) (got expected : String)
    (fuel : Nat) (hac : acyclic_types domain) (hfuel : domain.types.length < fuel) :
    ∃ b, check_type fuel wh got expected domain = some b :=
  check_type_returns_aux domain wh expected (acyclic_first_supertype hac)
    fuel [] got List.nodup_nil (by simp) (by simp) (by simp; omega)

/-- C2 (as it is stated, refuted): in a domain without a cycle where `a` is declared
with the supertypes `b` and then `c`, the pair `(a, c)` is in the closure of the
declared pairs, yet `check_type` returns false for it. -/
theorem check_type_misses_second_supertype :
    acyclic_types dom_two_supertypes ∧ conforms dom_two_supertypes "a" "c" ∧
      check_type 2 0 "a" "c" dom_two_supertypes = some false ∧
      ∀ fuel, check_type fuel 0 "a" "c" dom_two_supertypes ≠ some true := by
  have hrel : ∀ x y, declared_subtype dom_two_supertypes x y → x = "a" ∧ (y = "b" ∨ y = "c") := by
    intro x y h
    simp only [declared_subtype, dom_two_supertypes, List.mem_cons, Prod.mk.injEq,
      List.mem_singleton, List.not_mem_nil, or_false] at h
    rcases h with ⟨h1, h2⟩ | ⟨h1, h2⟩
    · exact ⟨h1, Or.inl h2⟩
    · exact ⟨h1, Or.inr h2⟩
  refine ⟨?_, ?_, ?_, ?_⟩
  · intro t ht
    obtain ⟨y, hy, _⟩ := Relation.TransGen.head'_iff.mp ht
    obtain ⟨z, _, hz⟩ := Relation.TransGen.tail'_iff.mp ht
    have h1 := (hrel _ _ hy).1
    have h2 := (hrel _ _ hz).2
    subst h1
    rcases h2 with h | h <;> exact absurd h (by decide)
  · exact Relation.ReflTransGen.single (by simp [declared_subtype, dom_two_supertypes])
  · rfl
  · intro fuel h
    have := check_type_sound _ _ _ _ _ h
    rcases Relation.ReflTransGen.cases_head this with h | ⟨m, ⟨p, hp, hm⟩, hrest⟩
    · exact absurd h (by decide)
    · simp [dom_two_supertypes] at hp
      subst hp
      simp only at hm
      subst hm
      rcases Relation.ReflTransGen.cases_head hrest with h | ⟨m, ⟨p, hp, _⟩, _⟩
      · exact absurd h (by decide)
      · simp [dom_two_supertypes] at hp

/-- C2 (amended): in a domain whose type declarations contain no cycle, `check_type`
returns within `|types| + 1` calls, and it returns true exactly when `expected` is
reached from `got` by repeatedly taking the supertype of the first pair whose
subtype is the current name; when moreover no name is declared with two different
supertypes this is the reflexive-transitive closure of the declared pairs. -/
theorem check_type_decides_first_supertype (domain : Domain) (wh : iterator_type)
    (got expected : String) (fuel : Nat) (hac : acyclic_types domain)
    (hfuel : domain.types.length < fuel) :
    ∃ b, check_type fuel wh got expected domain = some b ∧
      (b = true ↔ Relation.ReflTransGen (first_supertype domain) got expected) ∧
      (single_supertype domain → (b = true ↔ conforms domain got expected)) := by
  obtain ⟨b, hb⟩ := check_type_returns domain wh got expected fuel hac hfuel
  have hiff : b = true ↔ Relation.ReflTransGen (first_supertype domain) got expected :=
    ⟨fun h => check_type_sound domain wh expected fuel got (h ▸ hb),
     fun h => check_type_complete domain wh got expected h fuel b hb⟩
  refine ⟨b, hb, hiff, fun hs => ?_⟩
  have heq : first_supertype domain = declared_subtype domain := by
    funext a c
    exact propext ⟨first_supertype_declared, declared_first_supertype hs⟩
  rw [hiff, heq, conforms]

theorem check_type_decides_first_supertype_witness :
    ∃ b, check_type 3 0 "a" "c" dom_chain = some b ∧
      (b = true ↔ Relation.ReflTransGen (first_supertype dom_chain) "a" "c") ∧
      (single_supertype dom_chain → (b = true ↔ conforms dom_chain "a" "c")) :=
  check_type_decides_first_supertype dom_chain 0 "a" "c" 3
    (acyclic_of_rank dom_chain (fun s => if s = "a" then 0 else if s = "b" then 1 else 2)
      (by decide))
    (by decide)

/-! ## Properties of `ConstantSemantics` -/

/-- C3: `ConstantSemantics` succeeds on the group `(names, t)`, returning the group
unchanged, exactly when typing is enabled, `t` is non-empty and occurs in a pair of
`domain.types`, or typing is disabled and `t` is empty; in every other case it
raises a `PddlTypeException`, in particular for an empty type with typing enabled
and for a non-empty type with typing disabled. -/
theorem ConstantSemantics_succeeds_iff (wh : iterator_type) (names : type_list) (t : String)
    (domain : Domain) (warnings : List String) :
    ((∃ w, ConstantSemantics wh (names, t) domain warnings = .ok ((names, t), w)) ↔
      ((typing_required domain = true ∧ t ≠ "" ∧ ∃ p ∈ domain.types, p.1 = t ∨ p.2 = t) ∨
        (typing_required domain = false ∧ t = ""))) ∧
    ((∀ r, ConstantSemantics wh (names, t) domain warnings = .ok r →
        r = ((names, t), ambiguity_warnings (names, t) domain warnings)) ∧
      ((∃ w, ConstantSemantics wh (names, t) domain warnings = .ok ((names, t), w)) ∨
        ∃ msg, ConstantSemantics wh (names, t) domain warnings =
          .error (PddlTypeException msg wh))) ∧
    ((typing_required domain = true ∧ t = "") ∨ (typing_required domain = false ∧ t ≠ "") →
      ∃ msg, ConstantSemantics wh (names, t) domain warnings =
        .error (PddlTypeException msg wh)) := by
  cases hty : typing_required domain <;> by_cases ht : t = ""
  · subst ht
    simp [ConstantSemantics, check_type_vs_requirement, hty]
  · simp [ConstantSemantics, check_type_vs_requirement, hty, ht]
  · subst ht
    by_cases hf : domain.types.find? (fun p => p.1 == "" || p.2 == "") = none
    · simp [ConstantSemantics, check_type_vs_requirement, hty, hf]
    · simp [ConstantSemantics, check_type_vs_requirement, hty, hf]
  · by_cases hf : domain.types.find? (fun p => p.1 == t || p.2 == t) = none
    · have hf1 := hf
      rw [List.find?_eq_none] at hf1
      have hno : ¬ ∃ p ∈ domain.types, p.1 = t ∨ p.2 = t := by
        rintro ⟨p, hp, h⟩
        exact hf1 p hp (by simpa using h)
      simp [ConstantSemantics, check_type_vs_requirement, hty, ht, hf, hno]
    · have hyes : ∃ p ∈ domain.types, p.1 = t ∨ p.2 = t := by
        cases hq : domain.types.find? (fun p => p.1 == t || p.2 == t) with
        | none => exact absurd hq hf
        | some p =>
          exact ⟨p, List.mem_of_find?_eq_some hq, by simpa using List.find?_some hq⟩
      simp [ConstantSemantics, check_type_vs_requirement, hty, ht, hf, hyes]

theorem ConstantSemantics_succeeds_iff_witness :
    ∃ msg, ConstantSemantics 0 (["a"], "") dom_typed [] = .error (PddlTypeException msg 0) :=
  (ConstantSemantics_succeeds_iff 0 ["a"] "" dom_typed []).2.2 (Or.inl ⟨by decide, rfl⟩)

/-! ## Properties of `check_action_condition` and `check_action_predicate` -/

/-- C4: a PREDICATE expression whose name is the name of no declared predicate
raises `PddlPredicateException` with the message "Unknown predicate: " followed by
the name, whatever the action, the bound variables, the arguments and the
requirements are. -/
theorem unknown_predicate_raises (fuel : Nat) (wh : iterator_type) (domain : Domain)
    (curr_action : Action) (bound_vars : string_pairs_type) (function : Atom)
    (arguments : List Expression) (h : ∀ p ∈ domain.predicates, p.1 ≠ function) :
    check_action_predicate fuel wh domain curr_action (.mk function arguments) .PREDICATE
        bound_vars
      = some (.error (PddlPredicateException ("Unknown predicate: " ++ function) wh)) ∧
    check_action_condition fuel wh domain curr_action
        (.mk .PREDICATE (.predicate (.mk function arguments))) bound_vars
      = some (.error (PddlPredicateException ("Unknown predicate: " ++ function) wh)) := by
  have hf : domain.predicates.find? (fun p => function == p.1) = none := by
    rw [List.find?_eq_none]
    intro p hp
    simpa using fun heq : function = p.1 => h p hp heq.symm
  simp [check_action_condition, check_action_predicate, hf]

theorem unknown_predicate_raises_witness :
    check_action_predicate 0 0 dom_unary
        (action_with_precondition (.mk .PREDICATE (.predicate (.mk "q" [.mk .ATOM (.atom "?x")]))))
        (.mk "q" [.mk .ATOM (.atom "?x")]) .PREDICATE []
      = some (.error (PddlPredicateException "Unknown predicate: q" 0)) ∧
    check_action_condition 0 0 dom_unary
        (action_with_precondition (.mk .PREDICATE (.predicate (.mk "q" [.mk .ATOM (.atom "?x")]))))
        (.mk .PREDICATE (.predicate (.mk "q" [.mk .ATOM (.atom "?x")]))) []
      = some (.error (PddlPredicateException "Unknown predicate: q" 0)) :=
  unknown_predicate_raises 0 0 dom_unary _ [] "q" [.mk .ATOM (.atom "?x")] (by decide)

/-- C5 (the code at the scenario of the claim): with the predicate `(p ?x ?y)`
declared, the precondition `(p ?x)` raises a `PddlPredicateException` whose message
spells "missmatch", which is not the message "Predicate argument length mismatch,
expected 2 but got 1". -/
theorem arity_message_misspelled :
    check_action_predicate 0 0 dom_binary
        (action_with_precondition (.mk .PREDICATE (.predicate (.mk "p" [.mk .ATOM (.atom "?x")]))))
        (.mk "p" [.mk .ATOM (.atom "?x")]) .PREDICATE []
      = some (.error (PddlPredicateException
          "Predicate argument length missmatch, expected 2 but got 1" 0)) ∧
    "Predicate argument length missmatch, expected 2 but got 1"
      ≠ "Predicate argument length mismatch, expected 2 but got 1" :=
  ⟨rfl, by decide⟩

theorem check_type_vs_requirement_error (wh : iterator_type) (typing_enabled : Bool)
    (type : String) (e : PddlException)
    (h : check_type_vs_requirement wh typing_enabled type = .error e) :
    ∃ msg, e = PddlTypeException msg wh := by
  unfold check_type_vs_requirement at h
  split at h
  · exact ⟨_, (Except.error.inj h).symm⟩
  · split at h
    · exact ⟨_, (Except.error.inj h).symm⟩
    · cases h

theorem check_action_params_error (wh : iterator_type) (typing_enabled : Bool) (domain : Domain)
    (params : string_pairs_type) (e : PddlException)
    (h : check_action_params wh typing_enabled domain params = .error e) :
    ∃ msg, e = PddlTypeException msg wh := by
  induction params with
  | nil => simp [check_action_params] at h
  | cons p ps ih =>
    unfold check_action_params at h
    split at h
    · exact ⟨_, (Except.error.inj h).symm⟩
    · cases hc : check_type_vs_requirement wh typing_enabled p.2 with
      | error e1 =>
        rw [hc] at h
        obtain ⟨msg, rfl⟩ := check_type_vs_requirement_error _ _ _ _ hc
        exact ⟨msg, (Except.error.inj h).symm⟩
      | ok u =>
        rw [hc] at h
        exact ih h

theorem check_sub_exprs_atom (fuel : Nat) (wh : iterator_type) (domain : Domain)
    (curr_action : Action) (type : ExpressionType) (a : Atom) (post : List Expression) :
    ∀ (pre : List Expression) (bound_vars r : string_pairs_type),
      check_sub_exprs fuel wh domain curr_action (pre ++ .mk type (.atom a) :: post) bound_vars
        ≠ some (.ok r) := by
  intro pre
  induction pre with
  | nil =>
    intro bound_vars r
    simp [check_sub_exprs, check_action_condition]
  | cons e es ih =>
    intro bound_vars r
    simp only [List.cons_append, check_sub_exprs]
    cases hc : check_action_condition fuel wh domain curr_action e bound_vars with
    | none => simp
    | some res =>
      cases res with
      | error err => simp
      | ok bv => exact ih bv r

/-- C10: an expression with a Predicate payload whose kind is neither BOOL nor
PREDICATE passes `check_action_condition` and leaves `bound_vars` unchanged,
whatever the function name and the arguments are. -/
theorem other_kinds_unchecked (fuel : Nat) (wh : iterator_type) (domain : Domain)
    (curr_action : Action) (bound_vars : string_pairs_type) (type : ExpressionType)
    (function : Atom) (arguments : List Expression)
    (hb : type ≠ .BOOL) (hp : type ≠ .PREDICATE) :
    check_action_condition fuel wh domain curr_action
        (.mk type (.predicate (.mk function arguments))) bound_vars
      = some (.ok bound_vars) := by
  cases type <;> simp_all [check_action_condition, check_action_predicate]

theorem other_kinds_unchecked_witness :
    check_action_condition 0 0 dom_unary (action_with_precondition default_expression)
        (.mk .NUMERIC_COMP (.predicate (.mk "q" [.mk .ATOM (.atom "?z"), default_expression])))
        [("y", "")]
      = some (.ok [("y", "")]) :=
  other_kinds_unchecked 0 0 dom_unary _ [("y", "")] .NUMERIC_COMP "q" _ (by decide) (by decide)

/-! ## The loop over the arguments of a predicate -/

theorem string_append_left_cancel (p a b : String) (h : p ++ a = p ++ b) : a = b := by
  have hd := congrArg String.data h
  simp only [String.data_append] at hd
  exact String.ext (List.append_cancel_left hd)

theorem qmark_data (n : String) : ("?" ++ n).data = '?' :: n.data := by
  simp [String.data_append]

theorem qmark_front (n : String) : front ("?" ++ n) = some '?' := by
  simp [front, qmark_data]

theorem qmark_name (n : String) : substr ("?" ++ n) 1 = n := by
  simp [substr, qmark_data]

theorem variable_type_ok_of_mem (wh : iterator_type) (curr_action : Action)
    (bound_vars : string_pairs_type) (a : Atom) (t : String) (l1 l2 : string_pairs_type)
    (h : bound_vars = l1 ++ (substr a 1, t) :: l2)
    (hl : ∀ q ∈ l1, q.1 ≠ substr a 1) :
    variable_type wh curr_action bound_vars a = .ok t := by
  have hf : bound_vars.find? (fun c => c.1 == substr a 1)
      = some (substr a 1, t) := by
    subst h
    rw [List.find?_append]
    have : l1.find? (fun c => c.1 == substr a 1) = none := by
      rw [List.find?_eq_none]
      intro q hq
      simpa using hl q hq
    simp [this]
  simp [variable_type, hf]

theorem variable_type_ok_of_param (wh : iterator_type) (curr_action : Action)
    (bound_vars : string_pairs_type) (a : Atom) (t : String) (l1 l2 : string_pairs_type)
    (hb : ∀ q ∈ bound_vars, q.1 ≠ substr a 1)
    (h : curr_action.action_params = l1 ++ (substr a 1, t) :: l2)
    (hl : ∀ q ∈ l1, q.1 ≠ substr a 1) :
    variable_type wh curr_action bound_vars a = .ok t := by
  have hn : bound_vars.find? (fun c => c.1 == substr a 1) = none := by
    rw [List.find?_eq_none]
    intro q hq
    simpa using hb q hq
  have hf : curr_action.action_params.find? (fun c => c.1 == substr a 1)
      = some (substr a 1, t) := by
    rw [h, List.find?_append]
    have : l1.find? (fun c => c.1 == substr a 1) = none := by
      rw [List.find?_eq_none]
      intro q hq
      simpa using hl q hq
    simp [this]
  simp [variable_type, hn, hf]

theorem variable_type_error_iff (wh : iterator_type) (curr_action : Action)
    (bound_vars : string_pairs_type) (a : Atom) (e : PddlException) :
    variable_type wh curr_action bound_vars a = .error e ↔
      (e = PddlParameterException ("Unknown Parameter " ++ a) wh ∧
        (∀ q ∈ bound_vars, q.1 ≠ substr a 1) ∧
        ∀ q ∈ curr_action.action_params, q.1 ≠ substr a 1) := by
  unfold variable_type
  cases hb : bound_vars.find? (fun c => c.1 == substr a 1) with
  | some q =>
    have hq := List.find?_some hb
    have hm := List.mem_of_find?_eq_some hb
    simp only [beq_iff_eq] at hq
    constructor
    · intro h; cases h
    · rintro ⟨_, h, _⟩; exact absurd hq (h q hm)
  | none =>
    have hb1 : ∀ q ∈ bound_vars, q.1 ≠ substr a 1 := by
      rw [List.find?_eq_none] at hb
      intro q hq
      simpa using hb q hq
    cases hp : curr_action.action_params.find? (fun c => c.1 == substr a 1) with
    | some q =>
      have hq := List.find?_some hp
      have hm := List.mem_of_find?_eq_some hp
      simp only [beq_iff_eq] at hq
      constructor
      · intro h; cases h
      · rintro ⟨_, _, h⟩; exact absurd hq (h q hm)
    | none =>
      have hp1 : ∀ q ∈ curr_action.action_params, q.1 ≠ substr a 1 := by
        rw [List.find?_eq_none] at hp
        intro q hq
        simpa using hp q hq
      constructor
      · intro h
        exact ⟨(Except.error.inj h).symm, hb1, hp1⟩
      · rintro ⟨h, _, _⟩
        rw [h]

theorem constant_match_absent (fuel : Nat) (wh : iterator_type) (domain : Domain)
    (expected : String) (a : Atom) :
    ∀ (cs : pairs_multi_consts) (found : Bool) (ty : String), (∀ c ∈ cs, a ∉ c.1) →
      constant_match fuel wh domain expected a cs found ty = some (false, found, ty) := by
  intro cs
  induction cs with
  | nil => intro found ty _; rfl
  | cons c cs ih =>
    intro found ty h
    have hc : a ∉ c.1 := h c (List.mem_cons_self _ _)
    have hrest : ∀ c1 ∈ cs, a ∉ c1.1 := fun c1 h1 => h c1 (List.mem_cons_of_mem _ h1)
    simp [constant_match, hc, ih found ty hrest]

theorem constant_match_not_found (fuel : Nat) (wh : iterator_type) (domain : Domain)
    (expected : String) (a : Atom) :
    ∀ (cs : pairs_multi_consts) (found : Bool) (ty : String) (m : Bool) (ty1 : String),
      constant_match fuel wh domain expected a cs found ty = some (m, false, ty1) →
      ∀ c ∈ cs, a ∉ c.1 := by
  have htrue : ∀ (cs : pairs_multi_consts) (ty : String) (m : Bool) (ty1 : String),
      constant_match fuel wh domain expected a cs true ty ≠ some (m, false, ty1) := by
    intro cs
    induction cs with
    | nil => intro ty m ty1; simp [constant_match]
    | cons c cs ih =>
      intro ty m ty1
      unfold constant_match
      split
      · cases hct : check_type fuel wh c.2 expected domain with
        | none => simp
        | some b => cases b <;> simp [ih]
      · exact ih ty m ty1
  intro cs
  induction cs with
  | nil => intro _ _ _ _ _ c hc; cases hc
  | cons c cs ih =>
    intro found ty m ty1 h c1 hc1
    unfold constant_match at h
    split at h
    · cases hct : check_type fuel wh c.2 expected domain with
      | none => simp [hct] at h
      | some b =>
        cases b
        · simp only [hct] at h
          exact absurd h (htrue cs _ m ty1)
        · simp [hct] at h
    · rename_i hcont
      rcases List.mem_cons.mp hc1 with rfl | hmem
      · simpa using hcont
      · exact ih found ty m ty1 h c1 hmem

theorem check_argument_variable (fuel : Nat) (wh : iterator_type) (domain : Domain)
    (curr_action : Action) (bound_vars : string_pairs_type) (typing_enabled : Bool)
    (defined_pred : predicate_type) (i : Nat) (type : ExpressionType) (a : Atom)
    (ha : front a = some '?') :
    check_argument fuel wh domain curr_action bound_vars typing_enabled defined_pred i
        (.mk type (.atom a)) =
      match variable_type wh curr_action bound_vars a with
      | .error e => some (.error e)
      | .ok t =>
        match check_type fuel wh t (declared_type defined_pred i) domain with
        | none => none
        | some conforms =>
          if typing_enabled = true ∧ conforms = false then
            some (.error (PddlTypeException (type_mismatch_message i defined_pred t) wh))
          else some (.ok ()) := by
  simp only [check_argument, Expression.expression, ha, ne_eq, not_true_eq_false, if_false]
  cases variable_type wh curr_action bound_vars a with
  | error e => rfl
  | ok t =>
    simp only
    cases check_type fuel wh t (declared_type defined_pred i) domain with
    | none => rfl
    | some c => cases c <;> cases typing_enabled <;> simp

theorem check_argument_error (fuel : Nat) (wh : iterator_type) (domain : Domain)
    (curr_action : Action) (bound_vars : string_pairs_type) (typing_enabled : Bool)
    (defined_pred : predicate_type) (i : Nat) (arg : Expression) (e : PddlException)
    (h : check_argument fuel wh domain curr_action bound_vars typing_enabled defined_pred i arg
      = some (.error e)) :
    e = PddlPredicateException "Unexpected nested predicate." wh ∨
    (∃ a, e = PddlConstantException ("Unknown constant " ++ a) wh ∧
      ∀ c ∈ domain.constants, a ∉ c.1) ∨
    (∃ a, variable_type wh curr_action bound_vars a = .error e) ∨
    ∃ msg, e = PddlTypeException msg wh := by
  obtain ⟨type, payload⟩ := arg
  cases payload with
  | predicate p =>
    simp only [check_argument, Expression.expression, Option.some.injEq, Except.error.injEq] at h
    exact Or.inl h.symm
  | quantified f =>
    simp only [check_argument, Expression.expression, Option.some.injEq, Except.error.injEq] at h
    exact Or.inl h.symm
  | atom a =>
    by_cases ha : front a = some '?'
    · rw [check_argument_variable _ _ _ _ _ _ _ _ _ _ ha] at h
      cases hv : variable_type wh curr_action bound_vars a with
      | error e1 =>
        simp only [hv, Option.some.injEq, Except.error.injEq] at h
        exact Or.inr (Or.inr (Or.inl ⟨a, h ▸ hv⟩))
      | ok t =>
        simp only [hv] at h
        cases hc : check_type fuel wh t (declared_type defined_pred i) domain with
        | none => simp [hc] at h
        | some c =>
          simp only [hc] at h
          split at h
          · simp only [Option.some.injEq, Except.error.injEq] at h
            exact Or.inr (Or.inr (Or.inr ⟨_, h.symm⟩))
          · simp at h
    · simp only [check_argument, Expression.expression, ne_eq, ha, not_false_eq_true, if_true] at h
      cases hm : constant_match fuel wh domain (declared_type defined_pred i) a
          domain.constants false "" with
      | none => simp [hm] at h
      | some r =>
        obtain ⟨m, found, ty⟩ := r
        cases m
        · cases found
          · simp only [hm, if_true, Option.some.injEq, Except.error.injEq] at h
            exact Or.inr (Or.inl ⟨a, h.symm, constant_match_not_found _ _ _ _ _ _ _ _ _ _ hm⟩)
          · simp only [hm, Bool.true_eq_false, if_false] at h
            split at h
            · simp only [Option.some.injEq, Except.error.injEq] at h
              exact Or.inr (Or.inr (Or.inr ⟨_, h.symm⟩))
            · simp at h
        · simp only [hm] at h
          split at h
          · simp only [Option.some.injEq, Except.error.injEq] at h
            exact Or.inr (Or.inr (Or.inr ⟨_, h.symm⟩))
          · simp at h

theorem check_arguments_error (fuel : Nat) (wh : iterator_type) (domain : Domain)
    (curr_action : Action) (bound_vars : string_pairs_type) (typing_enabled : Bool)
    (defined_pred : predicate_type) (e : PddlException) :
    ∀ (args : List Expression) (i : Nat),
      check_arguments fuel wh domain curr_action bound_vars typing_enabled defined_pred i args
        = some (.error e) →
      ∃ j arg, check_argument fuel wh domain curr_action bound_vars typing_enabled defined_pred
        j arg = some (.error e) := by
  intro args
  induction args with
  | nil => intro i h; simp [check_arguments] at h
  | cons arg rest ih =>
    intro i h
    unfold check_arguments at h
    cases hc : check_argument fuel wh domain curr_action bound_vars typing_enabled defined_pred
        i arg with
    | none => simp [hc] at h
    | some r =>
      cases r with
      | error e1 =>
        simp only [hc, Option.some.injEq, Except.error.injEq] at h
        exact ⟨i, arg, h ▸ hc⟩
      | ok u =>
        simp only [hc] at h
        exact ih (i + 1) h

theorem check_arguments_append (fuel : Nat) (wh : iterator_type) (domain : Domain)
    (curr_action : Action) (bound_vars : string_pairs_type) (typing_enabled : Bool)
    (defined_pred : predicate_type) (rest : List Expression) :
    ∀ (pre : List Expression) (i : Nat),
      check_arguments fuel wh domain curr_action bound_vars typing_enabled defined_pred i pre
        = some (.ok ()) →
      check_arguments fuel wh domain curr_action bound_vars typing_enabled defined_pred i
          (pre ++ rest)
        = check_arguments fuel wh domain curr_action bound_vars typing_enabled defined_pred
          (i + pre.length) rest := by
  intro pre
  induction pre with
  | nil => intro i _; simp
  | cons arg pre ih =>
    intro i h
    unfold check_arguments at h
    simp only [List.cons_append, List.length_cons]
    rw [check_arguments]
    cases hc : check_argument fuel wh domain curr_action bound_vars typing_enabled defined_pred
        i arg with
    | none => simp [hc] at h
    | some r =>
      cases r with
      | error e1 => simp [hc] at h
      | ok u =>
        simp only [hc] at h
        simp only []
        rw [ih (i + 1) h]
        congr 1
        omega

theorem check_action_predicate_declared (fuel : Nat) (wh : iterator_type) (domain : Domain)
    (curr_action : Action) (bound_vars : string_pairs_type) (function : Atom)
    (defined_pred : predicate_type) (arguments : List Expression)
    (hfind : domain.predicates.find? (fun p => function == p.1) = some defined_pred)
    (hlen : defined_pred.2.length = arguments.length) :
    check_action_predicate fuel wh domain curr_action (.mk function arguments) .PREDICATE
        bound_vars =
      match check_arguments fuel wh domain curr_action bound_vars (typing_required domain)
          defined_pred 0 arguments with
      | none => none
      | some (.error e) => some (.error e)
      | some (.ok ()) => some (.ok bound_vars) := by
  simp [check_action_predicate, hfind, hlen]

theorem check_action_predicate_error (fuel : Nat) (wh : iterator_type) (domain : Domain)
    (curr_action : Action) (bound_vars : string_pairs_type) (function : Atom)
    (defined_pred : predicate_type) (arguments : List Expression) (e : PddlException)
    (hfind : domain.predicates.find? (fun p => function == p.1) = some defined_pred)
    (hlen : defined_pred.2.length = arguments.length)
    (h : check_action_predicate fuel wh domain curr_action (.mk function arguments) .PREDICATE
        bound_vars = some (.error e)) :
    ∃ j arg, check_argument fuel wh domain curr_action bound_vars (typing_required domain)
      defined_pred j arg = some (.error e) := by
  rw [check_action_predicate_declared _ _ _ _ _ _ _ _ hfind hlen] at h
  cases hc : check_arguments fuel wh domain curr_action bound_vars (typing_required domain)
      defined_pred 0 arguments with
  | none => simp [hc] at h
  | some r =>
    cases r with
    | ok u => simp [hc] at h
    | error e1 =>
      simp only [hc, Option.some.injEq, Except.error.injEq] at h
      exact check_arguments_error _ _ _ _ _ _ _ _ _ _ (h ▸ hc)

theorem check_action_predicate_at (fuel : Nat) (wh : iterator_type) (domain : Domain)
    (curr_action : Action) (bound_vars : string_pairs_type) (function : Atom)
    (defined_pred : predicate_type) (pre post : List Expression) (arg : Expression)
    (hfind : domain.predicates.find? (fun p => function == p.1) = some defined_pred)
    (hlen : defined_pred.2.length = (pre ++ arg :: post).length)
    (hpre : check_arguments fuel wh domain curr_action bound_vars (typing_required domain)
      defined_pred 0 pre = some (.ok ())) :
    check_action_predicate fuel wh domain curr_action (.mk function (pre ++ arg :: post))
        .PREDICATE bound_vars =
      match check_argument fuel wh domain curr_action bound_vars (typing_required domain)
          defined_pred pre.length arg with
      | none => none
      | some (.error e) => some (.error e)
      | some (.ok ()) =>
        match check_arguments fuel wh domain curr_action bound_vars (typing_required domain)
            defined_pred (pre.length + 1) post with
        | none => none
        | some (.error e) => some (.error e)
        | some (.ok ()) => some (.ok bound_vars) := by
  rw [check_action_predicate_declared _ _ _ _ _ _ _ _ hfind hlen,
    check_arguments_append _ _ _ _ _ _ _ _ _ _ hpre, Nat.zero_add, check_arguments]
  cases check_argument fuel wh domain curr_action bound_vars (typing_required domain)
      defined_pred pre.length arg with
  | none => rfl
  | some r =>
    cases r with
    | error e => rfl
    | ok u => rfl

/-- C6: for an argument atom "?n" of a declared predicate with matching arity whose
earlier arguments are accepted, the type given to the conformance check is the type
of the first entry named `n` in `bound_vars`, or else of the first entry named `n` in
the parameters of the action; `PddlParameterException` with the message
"Unknown Parameter ?n" is raised exactly when neither list has an entry named `n`. -/
theorem variable_argument_resolution (fuel : Nat) (wh : iterator_type) (domain : Domain)
    (curr_action : Action) (bound_vars : string_pairs_type) (function : Atom)
    (defined_pred : predicate_type) (pre post : List Expression) (type : ExpressionType)
    (n : String)
    (hfind : domain.predicates.find? (fun p => function == p.1) = some defined_pred)
    (hlen : defined_pred.2.length = (pre ++ Expression.mk type (.atom ("?" ++ n)) :: post).length)
    (hpre : check_arguments fuel wh domain curr_action bound_vars (typing_required domain)
      defined_pred 0 pre = some (.ok ())) :
    (∀ t l1 l2, bound_vars = l1 ++ (n, t) :: l2 → (∀ q ∈ l1, q.1 ≠ n) →
      check_action_predicate fuel wh domain curr_action
          (.mk function (pre ++ Expression.mk type (.atom ("?" ++ n)) :: post)) .PREDICATE
          bound_vars
        = continue_with_type fuel wh domain curr_action bound_vars defined_pred pre.length t
            post) ∧
    (∀ t l1 l2, (∀ q ∈ bound_vars, q.1 ≠ n) → curr_action.action_params = l1 ++ (n, t) :: l2 →
      (∀ q ∈ l1, q.1 ≠ n) →
      check_action_predicate fuel wh domain curr_action
          (.mk function (pre ++ Expression.mk type (.atom ("?" ++ n)) :: post)) .PREDICATE
          bound_vars
        = continue_with_type fuel wh domain curr_action bound_vars defined_pred pre.length t
            post) ∧
    (check_action_predicate fuel wh domain curr_action
          (.mk function (pre ++ Expression.mk type (.atom ("?" ++ n)) :: post)) .PREDICATE
          bound_vars
        = some (.error (PddlParameterException ("Unknown Parameter ?" ++ n) wh)) ↔
      (∀ q ∈ bound_vars, q.1 ≠ n) ∧ ∀ q ∈ curr_action.action_params, q.1 ≠ n) := by
  have hat := check_action_predicate_at fuel wh domain curr_action bound_vars function
    defined_pred pre post (.mk type (.atom ("?" ++ n))) hfind hlen hpre
  have hvar := check_argument_variable fuel wh domain curr_action bound_vars
    (typing_required domain) defined_pred pre.length type ("?" ++ n) (qmark_front n)
  have hmsg : "Unknown Parameter ?" ++ n = "Unknown Parameter " ++ ("?" ++ n) := by
    rw [← String.append_assoc]; rfl
  have hcont : ∀ t, variable_type wh curr_action bound_vars ("?" ++ n) = .ok t →
      check_action_predicate fuel wh domain curr_action
          (.mk function (pre ++ Expression.mk type (.atom ("?" ++ n)) :: post)) .PREDICATE
          bound_vars
        = continue_with_type fuel wh domain curr_action bound_vars defined_pred pre.length t
            post := by
    intro t ht
    rw [hat, hvar, ht]
    unfold continue_with_type
    simp only []
    cases hct : check_type fuel wh t (declared_type defined_pred pre.length) domain with
    | none => rfl
    | some c =>
      by_cases hc : typing_required domain = true ∧ c = false
      · simp only [hc, and_self, if_true]
      · simp only [hc, if_false]
  refine ⟨?_, ?_, ?_⟩
  · intro t l1 l2 hb hl
    apply hcont
    apply variable_type_ok_of_mem wh curr_action bound_vars ("?" ++ n) t l1 l2
    · rw [qmark_name]; exact hb
    · rw [qmark_name]; exact hl
  · intro t l1 l2 hb hp hl
    apply hcont
    apply variable_type_ok_of_param wh curr_action bound_vars ("?" ++ n) t l1 l2
    · rw [qmark_name]; exact hb
    · rw [qmark_name]; exact hp
    · rw [qmark_name]; exact hl
  · constructor
    · intro h
      obtain ⟨j, arg, hj⟩ := check_action_predicate_error _ _ _ _ _ _ _ _ _ hfind hlen h
      rcases check_argument_error _ _ _ _ _ _ _ _ _ _ hj with h1 | ⟨a, h1, _⟩ | ⟨a, h1⟩ | ⟨m, h1⟩
      · cases h1
      · cases h1
      · obtain ⟨he, hb, hp⟩ := (variable_type_error_iff _ _ _ _ _).mp h1
        rw [hmsg] at he
        have ha : a = "?" ++ n := by
          have := PddlException.PddlParameterException.inj he
          exact (string_append_left_cancel _ _ _ this.1).symm
        subst ha
        rw [qmark_name] at hb hp
        exact ⟨hb, hp⟩
      · cases h1
    · rintro ⟨hb, hp⟩
      have hv : variable_type wh curr_action bound_vars ("?" ++ n)
          = .error (PddlParameterException ("Unknown Parameter " ++ ("?" ++ n)) wh) := by
        rw [variable_type_error_iff, qmark_name]
        exact ⟨rfl, hb, hp⟩
      rw [hat, hvar, hv, hmsg]

theorem variable_argument_resolution_witness :
    check_action_predicate 3 0 dom_things action_object_param
        (.mk "p" ([] ++ Expression.mk .ATOM (.atom ("?" ++ "x")) :: [])) .PREDICATE
        [("y", "object"), ("x", "thing"), ("x", "object")]
      = continue_with_type 3 0 dom_things action_object_param
          [("y", "object"), ("x", "thing"), ("x", "object")] ("p", [("x", "thing")]) 0 "thing" [] :=
  (variable_argument_resolution 3 0 dom_things action_object_param
    [("y", "object"), ("x", "thing"), ("x", "object")] "p" ("p", [("x", "thing")]) [] []
    .ATOM "x" rfl rfl rfl).1 "thing" [("y", "object")] [("x", "object")] rfl (by decide)

/-- C7: for a declared predicate with matching arity whose earlier arguments are
accepted, a non-empty argument atom `a` that does not begin with a question mark
raises `PddlConstantException` with the message "Unknown constant " followed by `a`
exactly when no group of `domain.constants` lists `a`, whatever the requirements
are. -/
theorem unknown_constant_iff (fuel : Nat) (wh : iterator_type) (domain : Domain)
    (curr_action : Action) (bound_vars : string_pairs_type) (function : Atom)
    (defined_pred : predicate_type) (pre post : List Expression) (type : ExpressionType)
    (a : Atom) (_hne : a ≠ "") (ha : front a ≠ some '?')
    (hfind : domain.predicates.find? (fun p => function == p.1) = some defined_pred)
    (hlen : defined_pred.2.length = (pre ++ Expression.mk type (.atom a) :: post).length)
    (hpre : check_arguments fuel wh domain curr_action bound_vars (typing_required domain)
      defined_pred 0 pre = some (.ok ())) :
    check_action_predicate fuel wh domain curr_action
        (.mk function (pre ++ Expression.mk type (.atom a) :: post)) .PREDICATE bound_vars
      = some (.error (PddlConstantException ("Unknown constant " ++ a) wh)) ↔
    ∀ c ∈ domain.constants, a ∉ c.1 := by
  constructor
  · intro h
    obtain ⟨j, arg, hj⟩ := check_action_predicate_error _ _ _ _ _ _ _ _ _ hfind hlen h
    rcases check_argument_error _ _ _ _ _ _ _ _ _ _ hj with h1 | ⟨b, h1, hb⟩ | ⟨b, h1⟩ | ⟨m, h1⟩
    · cases h1
    · have := PddlException.PddlConstantException.inj h1
      have hab : a = b := string_append_left_cancel _ _ _ this.1
      subst hab
      exact hb
    · obtain ⟨he, _, _⟩ := (variable_type_error_iff _ _ _ _ _).mp h1
      cases he
    · cases h1
  · intro habs
    rw [check_action_predicate_at _ _ _ _ _ _ _ _ _ _ hfind hlen hpre]
    simp [check_argument, Expression.expression, ha,
      constant_match_absent fuel wh domain _ a domain.constants false "" habs]

theorem unknown_constant_iff_witness :
    check_action_predicate 3 0 dom_things action_object_param
        (.mk "p" ([] ++ Expression.mk .ATOM (.atom "j") :: [])) .PREDICATE []
      = some (.error (PddlConstantException ("Unknown constant " ++ "j") 0)) ↔
    ∀ c ∈ dom_things.constants, "j" ∉ c.1 :=
  unknown_constant_iff 3 0 dom_things action_object_param [] "p" ("p", [("x", "thing")]) [] []
    .ATOM "j" (by decide) (by decide) rfl rfl rfl

theorem variables_loop (fuel : Nat) (wh : iterator_type) (domain : Domain)
    (curr_action : Action) (bound_vars : string_pairs_type) (defined_pred : predicate_type) :
    ∀ (vars : List (ExpressionType × Atom × String)) (i : Nat),
      (∀ v ∈ vars, front v.2.1 = some '?' ∧
        variable_type wh curr_action bound_vars v.2.1 = .ok v.2.2) →
      (check_arguments fuel wh domain curr_action bound_vars true defined_pred i
            (vars.map fun v => Expression.mk v.1 (.atom v.2.1)) = some (.ok ()) ∧
          ∀ k v, vars[k]? = some v →
            check_type fuel wh v.2.2 (declared_type defined_pred (i + k)) domain = some true) ∨
      ∃ k v, vars[k]? = some v ∧
        (∀ j u, j < k → vars[j]? = some u →
          check_type fuel wh u.2.2 (declared_type defined_pred (i + j)) domain = some true) ∧
        ((check_type fuel wh v.2.2 (declared_type defined_pred (i + k)) domain = some false ∧
            check_arguments fuel wh domain curr_action bound_vars true defined_pred i
              (vars.map fun v => Expression.mk v.1 (.atom v.2.1))
              = some (.error (PddlTypeException
                  (type_mismatch_message (i + k) defined_pred v.2.2) wh))) ∨
          (check_type fuel wh v.2.2 (declared_type defined_pred (i + k)) domain = none ∧
            check_arguments fuel wh domain curr_action bound_vars true defined_pred i
              (vars.map fun v => Expression.mk v.1 (.atom v.2.1)) = none)) := by
  intro vars
  induction vars with
  | nil =>
    intro i _
    exact Or.inl ⟨rfl, by simp⟩
  | cons v vs ih =>
    intro i hvars
    obtain ⟨hfront, hvt⟩ := hvars v (List.mem_cons_self _ _)
    have hrest : ∀ u ∈ vs, front u.2.1 = some '?' ∧
        variable_type wh curr_action bound_vars u.2.1 = .ok u.2.2 :=
      fun u hu => hvars u (List.mem_cons_of_mem _ hu)
    have harg := check_argument_variable fuel wh domain curr_action bound_vars true
      defined_pred i v.1 v.2.1 hfront
    rw [hvt] at harg
    simp only [] at harg
    simp only [List.map_cons, check_arguments]
    cases hct : check_type fuel wh v.2.2 (declared_type defined_pred i) domain with
    | none =>
      refine Or.inr ⟨0, v, List.getElem?_cons_zero, ?_, Or.inr ⟨by simpa using hct, ?_⟩⟩
      · intro j u hj; omega
      · simp [harg, hct]
    | some c =>
      cases c with
      | false =>
        refine Or.inr ⟨0, v, List.getElem?_cons_zero, ?_, Or.inl ⟨by simpa using hct, ?_⟩⟩
        · intro j u hj; omega
        · simp [harg, hct]
      | true =>
        have hstep : check_argument fuel wh domain curr_action bound_vars true defined_pred i
            (Expression.mk v.1 (.atom v.2.1)) = some (.ok ()) := by
          simp [harg, hct]
        simp only [hstep]
        rcases ih (i + 1) hrest with ⟨hok, hall⟩ | ⟨k, u, hk, hbefore, hcase⟩
        · refine Or.inl ⟨hok, ?_⟩
          intro k u hk
          cases k with
          | zero =>
            simp only [List.getElem?_cons_zero, Option.some.injEq] at hk
            subst hk
            simpa using hct
          | succ k =>
            simp only [List.getElem?_cons_succ] at hk
            have := hall k u hk
            rwa [Nat.add_assoc, Nat.add_comm 1 k] at this
        · have hidx : i + 1 + k = i + (k + 1) := by omega
          refine Or.inr ⟨k + 1, u, by simpa using hk, ?_, ?_⟩
          · intro j w hj hw
            cases j with
            | zero =>
              simp only [List.getElem?_cons_zero, Option.some.injEq] at hw
              subst hw
              simpa using hct
            | succ j =>
              simp only [List.getElem?_cons_succ] at hw
              have := hbefore j w (by omega) hw
              rwa [Nat.add_assoc, Nat.add_comm 1 j] at this
          · rw [hidx] at hcase
            exact hcase

/-- C8: with typing enabled, for a declared predicate with matching arity all of
whose arguments are variable atoms that resolve, `check_action_predicate` succeeds
exactly when `check_type` returns true at every position for the resolved type and
the declared type; when `check_type` returns false at some position and true at all
positions before it, a `PddlTypeException` for that position is raised.  When the
type declarations contain no cycle and the fuel exceeds their number, one of the two
happens. -/
theorem variable_arguments_type_checked (fuel : Nat) (wh : iterator_type) (domain : Domain)
    (curr_action : Action) (bound_vars : string_pairs_type) (function : Atom)
    (defined_pred : predicate_type) (vars : List (ExpressionType × Atom × String))
    (hty : typing_required domain = true)
    (hfind : domain.predicates.find? (fun p => function == p.1) = some defined_pred)
    (hlen : defined_pred.2.length = vars.length)
    (hvars : ∀ v ∈ vars, front v.2.1 = some '?' ∧
      variable_type wh curr_action bound_vars v.2.1 = .ok v.2.2) :
    ((∃ r, check_action_predicate fuel wh domain curr_action
          (.mk function (vars.map fun v => Expression.mk v.1 (.atom v.2.1))) .PREDICATE
          bound_vars = some (.ok r)) ↔
      ∀ k v, vars[k]? = some v →
        check_type fuel wh v.2.2 (declared_type defined_pred k) domain = some true) ∧
    (∀ k v, vars[k]? = some v →
      (∀ j u, j < k → vars[j]? = some u →
        check_type fuel wh u.2.2 (declared_type defined_pred j) domain = some true) →
      check_type fuel wh v.2.2 (declared_type defined_pred k) domain = some false →
      check_action_predicate fuel wh domain curr_action
          (.mk function (vars.map fun v => Expression.mk v.1 (.atom v.2.1))) .PREDICATE
          bound_vars
        = some (.error (PddlTypeException (type_mismatch_message k defined_pred v.2.2) wh))) ∧
    (acyclic_types domain → domain.types.length < fuel →
      check_action_predicate fuel wh domain curr_action
          (.mk function (vars.map fun v => Expression.mk v.1 (.atom v.2.1))) .PREDICATE
          bound_vars = some (.ok bound_vars) ∨
      ∃ k v, vars[k]? = some v ∧
        (∀ j u, j < k → vars[j]? = some u →
          check_type fuel wh u.2.2 (declared_type defined_pred j) domain = some true) ∧
        check_type fuel wh v.2.2 (declared_type defined_pred k) domain = some false ∧
        check_action_predicate fuel wh domain curr_action
            (.mk function (vars.map fun v => Expression.mk v.1 (.atom v.2.1))) .PREDICATE
            bound_vars
          = some (.error (PddlTypeException (type_mismatch_message k defined_pred v.2.2) wh))) := by
  have hdecl := check_action_predicate_declared fuel wh domain curr_action bound_vars function
    defined_pred (vars.map fun v => Expression.mk v.1 (.atom v.2.1)) hfind (by simpa using hlen)
  rw [hty] at hdecl
  have hloop := variables_loop fuel wh domain curr_action bound_vars defined_pred vars 0 hvars
  simp only [Nat.zero_add] at hloop
  rw [hdecl]
  rcases hloop with ⟨hok, hall⟩ | ⟨k, v, hk, hbefore, ⟨hfalse, herr⟩ | ⟨hnone, hdiv⟩⟩
  · refine ⟨?_, ?_, ?_⟩
    · exact ⟨fun _ => hall, fun _ => ⟨bound_vars, by simp [hok]⟩⟩
    · intro k v hk _ hfalse
      rw [hall k v hk] at hfalse
      cases hfalse
    · intro _ _
      exact Or.inl (by simp [hok])
  · refine ⟨?_, ?_, ?_⟩
    · constructor
      · rintro ⟨r, hr⟩
        simp [herr] at hr
      · intro hall
        rw [hall k v hk] at hfalse
        cases hfalse
    · intro k1 v1 hk1 hbefore1 hfalse1
      rcases Nat.lt_trichotomy k1 k with hlt | heq | hgt
      · rw [hbefore k1 v1 hlt hk1] at hfalse1
        cases hfalse1
      · subst heq
        rw [hk] at hk1
        cases hk1
        simp [herr]
      · rw [hbefore1 k v hgt hk] at hfalse
        cases hfalse
    · intro _ _
      exact Or.inr ⟨k, v, hk, hbefore, hfalse, by simp [herr]⟩
  · refine ⟨?_, ?_, ?_⟩
    · constructor
      · rintro ⟨r, hr⟩
        simp [hdiv] at hr
      · intro hall
        rw [hall k v hk] at hnone
        cases hnone
    · intro k1 v1 hk1 hbefore1 hfalse1
      rcases Nat.lt_trichotomy k1 k with hlt | heq | hgt
      · rw [hbefore k1 v1 hlt hk1] at hfalse1
        cases hfalse1
      · subst heq
        rw [hk] at hk1
        cases hk1
        rw [hnone] at hfalse1
        cases hfalse1
      · rw [hbefore1 k v hgt hk] at hnone
        cases hnone
    · intro hac hfuel
      obtain ⟨b, hb⟩ := check_type_returns domain wh v.2.2 (declared_type defined_pred k) fuel
        hac hfuel
      rw [hnone] at hb
      cases hb

theorem variable_arguments_type_checked_witness :
    check_action_predicate 3 0 dom_relation action_two_params
        (.mk "r" ([(ExpressionType.ATOM, "?x", "thing"), (ExpressionType.ATOM, "?y", "object")].map
          fun v => Expression.mk v.1 (.atom v.2.1))) .PREDICATE []
      = some (.error (PddlTypeException
          (type_mismatch_message 1 ("r", [("a", "object"), ("b", "thing")]) "object") 0)) :=
  (variable_arguments_type_checked 3 0 dom_relation action_two_params [] "r"
    ("r", [("a", "object"), ("b", "thing")])
    [(ExpressionType.ATOM, "?x", "thing"), (ExpressionType.ATOM, "?y", "object")] rfl rfl rfl
    (by
      intro v hv
      simp only [List.mem_cons, List.mem_singleton, List.not_mem_nil, or_false] at hv
      rcases hv with rfl | rfl <;> exact ⟨rfl, rfl⟩)).2.1 1 (ExpressionType.ATOM, "?y", "object")
    rfl
    (by
      intro j u hj hu
      have hj0 : j = 0 := by omega
      subst hj0
      simp only [List.getElem?_cons_zero, Option.some.injEq] at hu
      subst hu
      rfl)
    rfl

/-! ## The empty type in `check_type` -/

/-- C13 (as it is stated, refuted): with the types of scenario 2, where `thing` is
declared without a supertype, `check_type` returns false for the empty type against
the expected type `thing`, and returns true with no amount of fuel. -/
theorem check_type_empty_not_thing :
    check_type 1 0 "" "thing" dom_typed = some false ∧
      ∀ fuel, check_type fuel 0 "" "thing" dom_typed ≠ some true := by
  refine ⟨rfl, ?_⟩
  intro fuel
  cases fuel with
  | zero => simp [check_type]
  | succ n => simp [check_type, dom_typed]

/-- C13 (amended): `check_type` on the empty type returns true when the expected type
is empty as well, for every domain; when the expected type is non-empty and no pair of
`domain.types` has the empty string as its subtype, it returns false. -/
theorem check_type_empty (fuel : Nat) (wh : iterator_type) (expected : String)
    (domain : Domain) :
    check_type (fuel + 1) wh "" "" domain = some true ∧
    (expected ≠ "" → (∀ p ∈ domain.types, p.1 ≠ "") →
      check_type (fuel + 1) wh "" expected domain = some false) := by
  refine ⟨by simp [check_type], ?_⟩
  intro he hno
  have hf : domain.types.find? (fun p => p.1 == "") = none := by
    rw [List.find?_eq_none]
    intro p hp
    simpa using hno p hp
  have he1 : ¬ "" = expected := fun h => he h.symm
  simp [check_type, hf, he1]

theorem check_type_empty_witness :
    check_type (0 + 1) 0 "" "" dom_typed = some true ∧
      check_type (0 + 1) 0 "" "thing" dom_typed = some false :=
  ⟨(check_type_empty 0 0 "thing" dom_typed).1,
   (check_type_empty 0 0 "thing" dom_typed).2 (by decide) (by decide)⟩

/-! ## Properties of `TypeSemantics` -/

/-- C16: `TypeSemantics` raises `PddlTypeException` with the message
"Requirement typing disabled, unexpected type found." exactly when typing is not
enabled for the domain, and returns the pair unchanged exactly when it is. -/
theorem TypeSemantics_iff (wh : iterator_type) (parsed : pair_type) (domain : Domain) :
    (TypeSemantics wh parsed domain
        = .error (PddlTypeException "Requirement typing disabled, unexpected type found." wh) ↔
      typing_required domain = false) ∧
    (TypeSemantics wh parsed domain = .ok parsed ↔ typing_required domain = true) := by
  cases h : typing_required domain <;> simp [TypeSemantics, h]

/-! ## The parameters of an action -/

theorem violates_typing_rule_iff (wh : iterator_type) (domain : Domain) (p : string_pair_type) :
    violates_typing_rule domain p.2 ↔
      ∃ msg, check_action_params wh (typing_required domain) domain [p]
        = .error (PddlTypeException msg wh) := by
  obtain ⟨n, t⟩ := p
  have hfind : (∀ q ∈ domain.types, q.1 ≠ t ∧ q.2 ≠ t) ↔
      domain.types.find? (fun q => q.1 == t || q.2 == t) = none := by
    rw [List.find?_eq_none]
    constructor
    · intro h q hq
      simpa using h q hq
    · intro h q hq
      simpa using h q hq
  unfold violates_typing_rule
  simp only [hfind]
  rcases eq_or_ne t "" with rfl | ht
  · cases hty : typing_required domain <;>
      by_cases hf : domain.types.find? (fun q => q.1 == "" || q.2 == "") = none <;>
      simp [check_action_params, check_type_vs_requirement, hf]
  · cases hty : typing_required domain <;>
      by_cases hf : domain.types.find? (fun q => q.1 == t || q.2 == t) = none <;>
      simp [check_action_params, check_type_vs_requirement, ht, hf]

theorem exists_first_violation (domain : Domain) :
    ∀ params : string_pairs_type, (∃ p ∈ params, violates_typing_rule domain p.2) →
      ∃ l1 q l2, params = l1 ++ q :: l2 ∧
        (∀ r ∈ l1, ¬ violates_typing_rule domain r.2) ∧ violates_typing_rule domain q.2 := by
  intro params
  induction params with
  | nil => rintro ⟨p, hp, _⟩; cases hp
  | cons a rest ih =>
    rintro ⟨p, hp, hv⟩
    by_cases ha : violates_typing_rule domain a.2
    · exact ⟨[], a, rest, rfl, fun r hr => absurd hr (List.not_mem_nil r), ha⟩
    · have hrest : ∃ p ∈ rest, violates_typing_rule domain p.2 := by
        rcases List.mem_cons.mp hp with rfl | hp
        · exact absurd hv ha
        · exact ⟨p, hp, hv⟩
      obtain ⟨l1, q, l2, heq, hl1, hq⟩ := ih hrest
      refine ⟨a :: l1, q, l2, by rw [heq]; rfl, ?_, hq⟩
      intro r hr
      rcases List.mem_cons.mp hr with rfl | hr
      · exact ha
      · exact hl1 r hr

theorem check_action_params_cons (wh : iterator_type) (typing_enabled : Bool) (domain : Domain)
    (p : string_pair_type) (rest : string_pairs_type) :
    check_action_params wh typing_enabled domain (p :: rest) =
      match check_action_params wh typing_enabled domain [p] with
      | .error e => .error e
      | .ok () => check_action_params wh typing_enabled domain rest := by
  simp only [check_action_params]
  split
  · rfl
  · cases check_type_vs_requirement wh typing_enabled p.2 <;> rfl

theorem check_action_params_first_violation (wh : iterator_type) (domain : Domain)
    (p : string_pair_type) (l2 : string_pairs_type) (hp : violates_typing_rule domain p.2) :
    ∀ l1 : string_pairs_type, (∀ q ∈ l1, ¬ violates_typing_rule domain q.2) →
      ∃ msg, check_action_params wh (typing_required domain) domain [p]
          = .error (PddlTypeException msg wh) ∧
        check_action_params wh (typing_required domain) domain (l1 ++ p :: l2)
          = .error (PddlTypeException msg wh) := by
  intro l1
  induction l1 with
  | nil =>
    intro _
    obtain ⟨msg, hmsg⟩ := (violates_typing_rule_iff wh domain p).mp hp
    refine ⟨msg, hmsg, ?_⟩
    rw [List.nil_append, check_action_params_cons, hmsg]
  | cons q l1 ih =>
    intro h
    obtain ⟨msg, hmsg, hall⟩ := ih (fun r hr => h r (List.mem_cons_of_mem _ hr))
    refine ⟨msg, hmsg, ?_⟩
    have hq : ¬ violates_typing_rule domain q.2 := h q (List.mem_cons_self _ _)
    rw [violates_typing_rule_iff wh domain q] at hq
    rw [List.cons_append, check_action_params_cons]
    cases hc : check_action_params wh (typing_required domain) domain [q] with
    | error e =>
      obtain ⟨m, rfl⟩ := check_action_params_error _ _ _ _ _ hc
      exact absurd ⟨m, hc⟩ hq
    | ok u => exact hall

theorem check_action_params_ok (wh : iterator_type) (domain : Domain) :
    ∀ params : string_pairs_type, (∀ q ∈ params, ¬ violates_typing_rule domain q.2) →
      check_action_params wh (typing_required domain) domain params = .ok () := by
  intro params
  induction params with
  | nil => intro _; rfl
  | cons q rest ih =>
    intro h
    have hq : ¬ violates_typing_rule domain q.2 := h q (List.mem_cons_self _ _)
    rw [violates_typing_rule_iff wh domain q] at hq
    rw [check_action_params_cons]
    cases hc : check_action_params wh (typing_required domain) domain [q] with
    | error e =>
      obtain ⟨m, rfl⟩ := check_action_params_error _ _ _ _ _ hc
      exact absurd ⟨m, hc⟩ hq
    | ok u => exact ih (fun r hr => h r (List.mem_cons_of_mem _ hr))

theorem ActionSemantics_returns_parsed (fuel : Nat) (wh : iterator_type) (parsed : Action)
    (domain : Domain) (r : Action) (h : ActionSemantics fuel wh parsed domain = some (.ok r)) :
    r = parsed := by
  unfold ActionSemantics at h
  cases hp : check_action_params wh (typing_required domain) domain parsed.action_params with
  | error e => simp [hp] at h
  | ok u =>
    simp only [hp] at h
    cases hc : check_action_condition fuel wh domain parsed parsed.precondition [] with
    | none => simp [hc] at h
    | some res =>
      cases res with
      | error e => simp [hc] at h
      | ok bv =>
        simp only [hc] at h
        cases he : check_action_condition fuel wh domain parsed parsed.effect bv with
        | none => simp [he] at h
        | some res1 =>
          cases res1 with
          | error e => simp [he] at h
          | ok bv1 =>
            simp only [he, Option.some.injEq, Except.ok.injEq] at h
            exact h.symm

/-- C17: when the first parameter that violates the typing rule is `p`,
`ActionSemantics` raises the `PddlTypeException` of `p`, for every fuel and whatever
the precondition and the effect are; when no parameter violates the rule the
parameter loop raises nothing; on success the action is returned unchanged. -/
theorem action_parameters_checked (fuel : Nat) (wh : iterator_type) (domain : Domain)
    (parsed : Action) :
    (∀ l1 p l2, parsed.action_params = l1 ++ p :: l2 →
      (∀ q ∈ l1, ¬ violates_typing_rule domain q.2) → violates_typing_rule domain p.2 →
      ∃ msg, check_action_params wh (typing_required domain) domain [p]
          = .error (PddlTypeException msg wh) ∧
        ActionSemantics fuel wh parsed domain = some (.error (PddlTypeException msg wh))) ∧
    ((∃ p ∈ parsed.action_params, violates_typing_rule domain p.2) →
      ∃ msg, ActionSemantics fuel wh parsed domain = some (.error (PddlTypeException msg wh))) ∧
    ((∀ q ∈ parsed.action_params, ¬ violates_typing_rule domain q.2) →
      check_action_params wh (typing_required domain) domain parsed.action_params = .ok ()) ∧
    (∀ r, ActionSemantics fuel wh parsed domain = some (.ok r) → r = parsed) := by
  refine ⟨?_, ?_, check_action_params_ok wh domain parsed.action_params,
    ActionSemantics_returns_parsed fuel wh parsed domain⟩
  · intro l1 p l2 hparams h1 hp
    obtain ⟨msg, hmsg, hall⟩ := check_action_params_first_violation wh domain p l2 hp l1 h1
    refine ⟨msg, hmsg, ?_⟩
    simp [ActionSemantics, hparams, hall]
  · intro hex
    obtain ⟨l1, q, l2, heq, hl1, hq⟩ := exists_first_violation domain parsed.action_params hex
    obtain ⟨msg, _, hall⟩ := check_action_params_first_violation wh domain q l2 hq l1 hl1
    exact ⟨msg, by simp [ActionSemantics, heq, hall]⟩

/-! ## Properties of `ParamTransformer` -/

theorem foldl_append_flatMap {α β : Type} (f : α → List β) :
    ∀ (l : List α) (init : List β),
      l.foldl (fun acc x => acc ++ f x) init = init ++ l.flatMap f := by
  intro l
  induction l with
  | nil => intro init; simp
  | cons x xs ih => intro init; simp [ih, List.append_assoc]

theorem expansion_length (names variants : List String) :
    (expansion names variants).length = names.length * max 1 variants.length := by
  unfold expansion
  split
  · rename_i h; subst h; simp
  · rename_i h
    have hlen : ∀ vs : List String,
        (vs.flatMap fun v => names.map fun n => (n, v)).length = names.length * vs.length := by
      intro vs
      induction vs with
      | nil => simp
      | cons v vs ih => simp [ih, Nat.mul_succ, Nat.add_comm]
    have hpos : 1 ≤ variants.length := by
      cases variants with
      | nil => exact absurd rfl h
      | cons v vs => simp
    rw [hlen, Nat.max_eq_right hpos]

/-- C15: for a non-empty list of names, `ParamTransformer` returns a pair and leaves
an accumulator such that the accumulator followed by the pair is the old accumulator
followed by the expansion of the group; the expansion has
`|names| * max 1 |variants|` pairs and the old accumulator is a prefix of the new
one. -/
theorem ParamTransformer_expansion (wh : iterator_type) (names variants : List String)
    (target : string_pairs_type) (hne : names ≠ []) :
    ∃ res target1, ParamTransformer wh (names, variants) target = some (res, target1) ∧
      target1 ++ [res] = target ++ expansion names variants ∧
      (expansion names variants).length = names.length * max 1 variants.length ∧
      (∃ rest, target1 = target ++ rest) ∧
      ParamTransformer wh (["a", "b", "c"], ["t1", "t2"]) []
        = some (("c", "t2"),
            [("a", "t1"), ("b", "t1"), ("c", "t1"), ("a", "t2"), ("b", "t2")]) := by
  have hacc : (if variants.isEmpty then target ++ names.map (fun s => (s, ""))
        else variants.foldl (fun acc variant_type =>
          acc ++ names.map (fun s => (s, variant_type))) target)
      = target ++ expansion names variants := by
    unfold expansion
    cases variants with
    | nil => simp
    | cons v vs => simp [foldl_append_flatMap]
  have hlen := expansion_length names variants
  have hpos : 0 < (expansion names variants).length := by
    rw [hlen]
    have h1 : 0 < names.length := List.length_pos.mpr hne
    have h2 : 0 < max 1 variants.length := by omega
    exact Nat.mul_pos h1 h2
  have hexp : expansion names variants ≠ [] := List.length_pos.mp hpos
  have hlast : (target ++ expansion names variants).getLast?
      = some ((expansion names variants).getLast hexp) := by
    rw [List.getLast?_append_of_ne_nil _ hexp, List.getLast?_eq_getLast _ hexp]
  refine ⟨(expansion names variants).getLast hexp,
    target ++ (expansion names variants).dropLast, ?_, ?_, hlen, ⟨_, rfl⟩, rfl⟩
  · simp only [ParamTransformer, hacc, hlast]
    rw [List.dropLast_append_of_ne_nil _ hexp]
  · rw [List.append_assoc, List.dropLast_append_getLast]

theorem ParamTransformer_expansion_witness :
    ∃ res target1,
      ParamTransformer 0 (["a", "b", "c"], ["t1", "t2"]) [("z", "t0")] = some (res, target1) ∧
      target1 ++ [res] = [("z", "t0")] ++ expansion ["a", "b", "c"] ["t1", "t2"] ∧
      (expansion ["a", "b", "c"] ["t1", "t2"]).length
        = ["a", "b", "c"].length * max 1 ["t1", "t2"].length ∧
      (∃ rest, target1 = [("z", "t0")] ++ rest) ∧
      ParamTransformer 0 (["a", "b", "c"], ["t1", "t2"]) []
        = some (("c", "t2"),
            [("a", "t1"), ("b", "t1"), ("c", "t1"), ("a", "t2"), ("b", "t2")]) :=
  ParamTransformer_expansion 0 ["a", "b", "c"] ["t1", "t2"] [("z", "t0")] (by decide)

/-! ## The warnings of `ConstantSemantics` -/

theorem foldl_occurrences (constant : String) (msg : String) (differs : Prop)
    [Decidable differs] :
    ∀ (l : List String) (w : List String),
      l.foldl (fun w c => if c = constant ∧ differs then w ++ [msg] else w) w
        = w ++ (l.filter fun c1 => c1 == constant).flatMap fun _ =>
            if differs then [msg] else [] := by
  intro l
  induction l with
  | nil => intro w; simp
  | cons c cs ih =>
    intro w
    simp only [List.foldl_cons, ih]
    by_cases hc : c = constant
    · by_cases hd : differs
      · simp [hc, hd, List.filter_cons]
      · simp [hc, hd, List.filter_cons]
    · simp [hc, List.filter_cons]

theorem ambiguity_warnings_eq (names : type_list) (t : String) (domain : Domain)
    (warnings : List String) :
    ambiguity_warnings (names, t) domain warnings
      = warnings ++ expected_warnings names t domain.constants := by
  unfold ambiguity_warnings expected_warnings
  have hinner : ∀ (constant : String) (g : pair_multi_const) (w : List String),
      g.1.foldl (fun w c =>
          if c = constant ∧ t ≠ g.2 then
            w ++ ["Ambiguous type: " ++ constant ++ " type " ++ t ++ " and " ++ g.2]
          else w) w
        = w ++ (g.1.filter fun c1 => c1 == constant).flatMap fun _ =>
            if g.2 ≠ t then ["Ambiguous type: " ++ constant ++ " type " ++ t ++ " and " ++ g.2]
            else [] := by
    intro constant g w
    rw [foldl_occurrences constant _ (t ≠ g.2) g.1 w]
    by_cases h : t = g.2
    · simp [h]
    · have h1 : ¬ g.2 = t := fun h2 => h h2.symm
      simp [h, h1]
  simp only [hinner, foldl_append_flatMap]

/-- C14: when `ConstantSemantics` succeeds on the group `(names, t)`, it returns the
group and the warnings it was given followed by exactly the expected "Ambiguous
type" warnings, in the order names, groups, occurrences; nothing is appended when
every group that lists a name of `names` has the type `t`. -/
theorem ConstantSemantics_warnings (wh : iterator_type) (names : type_list) (t : String)
    (domain : Domain) (warnings : List String) (r : pair_multi_const × List String)
    (h : ConstantSemantics wh (names, t) domain warnings = .ok r) :
    r = ((names, t), warnings ++ expected_warnings names t domain.constants) ∧
    ((∀ g ∈ domain.constants, ∀ c ∈ names, c ∈ g.1 → g.2 = t) → r = ((names, t), warnings)) := by
  have hr : r = ((names, t), warnings ++ expected_warnings names t domain.constants) := by
    unfold ConstantSemantics at h
    simp only [] at h
    split at h
    · cases h
    · cases hc : check_type_vs_requirement wh (typing_required domain) t with
      | error e => simp [hc] at h
      | ok u =>
        simp only [hc, Except.ok.injEq] at h
        rw [← h, ambiguity_warnings_eq]
  refine ⟨hr, fun hsame => ?_⟩
  have hnil : expected_warnings names t domain.constants = [] := by
    unfold expected_warnings
    rw [List.flatMap_eq_nil_iff]
    intro c hc
    rw [List.flatMap_eq_nil_iff]
    intro g hg
    rw [List.flatMap_eq_nil_iff]
    intro c1 hc1
    have hmem : c ∈ g.1 := by
      have := List.mem_filter.mp hc1
      have heq : c1 = c := by simpa using this.2
      exact heq ▸ this.1
    simp [hsame g hg c hc hmem]
  rw [hr, hnil, List.append_nil]

theorem ConstantSemantics_warnings_witness :
    ConstantSemantics 0 (["a"], "object") dom_ambiguous []
        = .ok ((["a"], "object"), ["Ambiguous type: a type object and thing"]) ∧
      ((["a"], "object"), ["Ambiguous type: a type object and thing"])
        = ((["a"], "object"), [] ++ expected_warnings ["a"] "object" dom_ambiguous.constants) :=
  ⟨rfl, (ConstantSemantics_warnings 0 ["a"] "object" dom_ambiguous []
    ((["a"], "object"), ["Ambiguous type: a type object and thing"]) rfl).1⟩

/-! ## Variables and the constants of the domain -/

theorem check_type_types (wh : iterator_type) (expected : String) (d1 d2 : Domain)
    (htypes : d1.types = d2.types) :
    ∀ (fuel : Nat) (got : String),
      check_type fuel wh got expected d1 = check_type fuel wh got expected d2 := by
  intro fuel
  induction fuel with
  | zero => intro got; rfl
  | succ n ih =>
    intro got
    simp only [check_type, htypes]
    split
    · cases d2.types.find? (fun p => p.1 == got) with
      | none => rfl
      | some p => exact ih p.2
    · rfl

theorem check_arguments_variables_congr (fuel : Nat) (wh : iterator_type) (d1 d2 : Domain)
    (curr_action : Action) (bound_vars : string_pairs_type) (typing_enabled : Bool)
    (defined_pred : predicate_type) (htypes : d1.types = d2.types) :
    ∀ (args : List Expression) (i : Nat),
      (∀ arg ∈ args, ∃ ty a, arg = Expression.mk ty (.atom a) ∧ front a = some '?') →
      check_arguments fuel wh d1 curr_action bound_vars typing_enabled defined_pred i args
        = check_arguments fuel wh d2 curr_action bound_vars typing_enabled defined_pred i args := by
  intro args
  induction args with
  | nil => intro i _; rfl
  | cons arg rest ih =>
    intro i h
    obtain ⟨ty, a, rfl, ha⟩ := h arg (List.mem_cons_self _ _)
    have hstep : check_argument fuel wh d1 curr_action bound_vars typing_enabled defined_pred i
          (Expression.mk ty (.atom a))
        = check_argument fuel wh d2 curr_action bound_vars typing_enabled defined_pred i
          (Expression.mk ty (.atom a)) := by
      rw [check_argument_variable _ _ _ _ _ _ _ _ _ _ ha,
        check_argument_variable _ _ _ _ _ _ _ _ _ _ ha]
      cases variable_type wh curr_action bound_vars a with
      | error e => rfl
      | ok t =>
        simp only []
        rw [check_type_types wh _ d1 d2 htypes fuel t]
    simp only [check_arguments, hstep, ih (i + 1) (fun x hx => h x (List.mem_cons_of_mem _ hx))]

/-- C18: for a PREDICATE expression all of whose arguments are atoms beginning with a
question mark, the outcome of `check_action_predicate` is the same in two domains
with the same requirements, types and predicates, whatever their constants are; so a
parameter named like a constant is resolved as the parameter. -/
theorem variables_ignore_constants (fuel : Nat) (wh : iterator_type) (d1 d2 : Domain)
    (curr_action : Action) (bound_vars : string_pairs_type) (function : Atom)
    (arguments : List Expression)
    (hreq : d1.requirements = d2.requirements) (htypes : d1.types = d2.types)
    (hpred : d1.predicates = d2.predicates)
    (hargs : ∀ arg ∈ arguments, ∃ ty a, arg = Expression.mk ty (.atom a) ∧ front a = some '?') :
    check_action_predicate fuel wh d1 curr_action (.mk function arguments) .PREDICATE bound_vars
      = check_action_predicate fuel wh d2 curr_action (.mk function arguments) .PREDICATE
          bound_vars := by
  have hty : typing_required d1 = typing_required d2 := by
    simp [typing_required, hreq]
  simp only [check_action_predicate, hpred, hty]
  cases d2.predicates.find? (fun p => function == p.1) with
  | none => rfl
  | some dp =>
    simp only []
    split
    · rfl
    · rw [check_arguments_variables_congr fuel wh d1 d2 curr_action bound_vars
        (typing_required d2) dp htypes arguments 0 hargs]

theorem variables_ignore_constants_witness :
    check_action_predicate 3 0 dom_shadowed action_two_params
        (.mk "p" [.mk .ATOM (.atom "?x")]) .PREDICATE []
      = check_action_predicate 3 0 dom_things action_two_params
          (.mk "p" [.mk .ATOM (.atom "?x")]) .PREDICATE [] ∧
    check_action_predicate 3 0 dom_shadowed action_two_params
        (.mk "p" [.mk .ATOM (.atom "?x")]) .PREDICATE [] = some (.ok []) :=
  ⟨variables_ignore_constants 3 0 dom_shadowed dom_things action_two_params [] "p"
    [.mk .ATOM (.atom "?x")] rfl rfl rfl (by
      intro arg harg
      simp only [List.mem_singleton] at harg
      exact ⟨.ATOM, "?x", harg, rfl⟩), rfl⟩

/-! ## What a successful walk guarantees -/

theorem variable_type_ok_mem (wh : iterator_type) (curr_action : Action)
    (bound_vars : string_pairs_type) (a : Atom) (t : String)
    (h : variable_type wh curr_action bound_vars a = .ok t) :
    (∃ q ∈ bound_vars, q.1 = substr a 1) ∨ ∃ q ∈ curr_action.action_params, q.1 = substr a 1 := by
  by_contra hno
  have h1 : ∀ q ∈ bound_vars, q.1 ≠ substr a 1 := fun q hq heq => hno (Or.inl ⟨q, hq, heq⟩)
  have h2 : ∀ q ∈ curr_action.action_params, q.1 ≠ substr a 1 :=
    fun q hq heq => hno (Or.inr ⟨q, hq, heq⟩)
  have := (variable_type_error_iff wh curr_action bound_vars a _).mpr ⟨rfl, h1, h2⟩
  rw [h] at this
  cases this

theorem check_arguments_ok_resolve (fuel : Nat) (wh : iterator_type) (domain : Domain)
    (curr_action : Action) (bound_vars : string_pairs_type) (typing_enabled : Bool)
    (defined_pred : predicate_type) :
    ∀ (args : List Expression) (i : Nat),
      check_arguments fuel wh domain curr_action bound_vars typing_enabled defined_pred i args
        = some (.ok ()) →
      ∀ arg ∈ args, ∀ type a, arg = Expression.mk type (.atom a) → front a = some '?' →
        (∃ q ∈ bound_vars, q.1 = substr a 1) ∨
          ∃ q ∈ curr_action.action_params, q.1 = substr a 1 := by
  intro args
  induction args with
  | nil => intro i _ arg harg; cases harg
  | cons x rest ih =>
    intro i h arg harg type a harga hfront
    unfold check_arguments at h
    cases hc : check_argument fuel wh domain curr_action bound_vars typing_enabled defined_pred
        i x with
    | none => simp [hc] at h
    | some r =>
      cases r with
      | error e => simp [hc] at h
      | ok u =>
        simp only [hc] at h
        rcases List.mem_cons.mp harg with rfl | hmem
        · subst harga
          rw [check_argument_variable _ _ _ _ _ _ _ _ _ _ hfront] at hc
          cases hv : variable_type wh curr_action bound_vars a with
          | error e => simp [hv] at hc
          | ok t => exact variable_type_ok_mem wh curr_action bound_vars a t hv
        · exact ih (i + 1) h arg hmem type a harga hfront

theorem variables_resolve_mono (curr_action : Action) (vars vars1 : string_pairs_type)
    (x : Expression) (hsub : ∀ q ∈ vars, q ∈ vars1) (h : variables_resolve curr_action vars x) :
    variables_resolve curr_action vars1 x := by
  intro function arguments hx arg harg type a ha hfront
  rcases h function arguments hx arg harg type a ha hfront with ⟨q, hq, hn⟩ | hp
  · exact Or.inl ⟨q, hsub q hq, hn⟩
  · exact Or.inr hp

theorem check_action_predicate_other (fuel : Nat) (wh : iterator_type) (domain : Domain)
    (curr_action : Action) (bound_vars : string_pairs_type) (type : ExpressionType)
    (pred : Predicate) (hb : type ≠ .BOOL) (hp : type ≠ .PREDICATE) :
    check_action_predicate fuel wh domain curr_action pred type bound_vars
      = some (.ok bound_vars) := by
  obtain ⟨function, arguments⟩ := pred
  cases type <;> simp_all [check_action_predicate]

theorem predicate_node_guarantees (fuel : Nat) (wh : iterator_type) (domain : Domain)
    (curr_action : Action) (function : Atom) (arguments : List Expression)
    (bv bv1 : string_pairs_type)
    (h : check_action_predicate fuel wh domain curr_action (.mk function arguments) .PREDICATE bv
      = some (.ok bv1)) :
    bv1 = bv ∧
      declared_with_arity domain (.mk .PREDICATE (.predicate (.mk function arguments))) ∧
      variables_resolve curr_action bv (.mk .PREDICATE (.predicate (.mk function arguments))) := by
  simp only [check_action_predicate] at h
  cases hf : domain.predicates.find? (fun p => function == p.1) with
  | none => simp [hf] at h
  | some dp =>
    simp only [hf] at h
    by_cases hlen : dp.2.length = arguments.length
    · simp only [hlen, ne_eq, not_true_eq_false, if_false] at h
      cases hc : check_arguments fuel wh domain curr_action bv (typing_required domain) dp 0
          arguments with
      | none => simp [hc] at h
      | some r =>
        cases r with
        | error e => simp [hc] at h
        | ok u =>
          simp only [hc, Option.some.injEq, Except.ok.injEq] at h
          refine ⟨h.symm, ?_, ?_⟩
          · intro f args hx
            injection hx with _ hx
            injection hx with hx
            injection hx with hf1 ha1
            subst hf1 ha1
            exact ⟨dp, hf, hlen⟩
          · intro f args hx arg harg type a ha hfront
            injection hx with _ hx
            injection hx with hx
            injection hx with hf1 ha1
            subst hf1 ha1
            exact check_arguments_ok_resolve fuel wh domain curr_action bv _ dp _ 0 hc arg harg
              type a ha hfront
    · simp [hlen] at h

mutual
theorem walk_guarantees (fuel : Nat) (wh : iterator_type) (domain : Domain)
    (curr_action : Action) :
    ∀ (e : Expression) (bv bv1 : string_pairs_type),
      check_action_condition fuel wh domain curr_action e bv = some (.ok bv1) →
      bv1 = bv ++ bound_by e ∧
        ∀ x ∈ walked e, declared_with_arity domain x ∧ variables_resolve curr_action bv1 x
  | .mk type (.atom a), bv, bv1, h => by
    simp [check_action_condition] at h
  | .mk type (.quantified (.mk quantifier args sub_expr)), bv, bv1, h => by
    simp only [check_action_condition] at h
    obtain ⟨hb, hw⟩ := walk_guarantees fuel wh domain curr_action sub_expr (bv ++ args) bv1 h
    refine ⟨by rw [hb, bound_by, List.append_assoc], ?_⟩
    intro x hx
    simp only [walked, List.mem_cons] at hx
    rcases hx with rfl | hx
    · exact ⟨fun f a hc => (by cases hc), fun f a hc => (by cases hc)⟩
    · exact hw x hx
  | .mk type (.predicate (.mk function arguments)), bv, bv1, h => by
    simp only [check_action_condition] at h
    by_cases hB : type = .BOOL
    · subst hB
      simp only [check_action_predicate] at h
      obtain ⟨hb, hw⟩ := walk_list_guarantees fuel wh domain curr_action arguments bv bv1 h
      refine ⟨by rw [hb, bound_by], ?_⟩
      intro x hx
      simp only [walked, List.mem_cons] at hx
      rcases hx with rfl | hx
      · exact ⟨fun f a hc => (by cases hc), fun f a hc => (by cases hc)⟩
      · exact hw x hx
    · by_cases hP : type = .PREDICATE
      · subst hP
        obtain ⟨hb, hd, hv⟩ := predicate_node_guarantees fuel wh domain curr_action function
          arguments bv bv1 h
        subst hb
        refine ⟨by simp [bound_by], ?_⟩
        intro x hx
        simp only [walked, List.mem_singleton] at hx
        subst hx
        exact ⟨hd, hv⟩
      · rw [check_action_predicate_other fuel wh domain curr_action bv type _ hB hP] at h
        simp only [Option.some.injEq, Except.ok.injEq] at h
        subst h
        have hbound : bound_by (.mk type (.predicate (.mk function arguments))) = [] := by
          cases type <;> simp_all [bound_by]
        have hwalk : walked (.mk type (.predicate (.mk function arguments)))
            = [.mk type (.predicate (.mk function arguments))] := by
          cases type <;> simp_all [walked]
        refine ⟨by rw [hbound, List.append_nil], ?_⟩
        intro x hx
        rw [hwalk, List.mem_singleton] at hx
        subst hx
        refine ⟨fun f a hc => ?_, fun f a hc => ?_⟩
        · injection hc with ht _
          exact absurd ht hP
        · injection hc with ht _
          exact absurd ht hP
theorem walk_list_guarantees (fuel : Nat) (wh : iterator_type) (domain : Domain)
    (curr_action : Action) :
    ∀ (es : List Expression) (bv bv1 : string_pairs_type),
      check_sub_exprs fuel wh domain curr_action es bv = some (.ok bv1) →
      bv1 = bv ++ bound_by_of es ∧
        ∀ x ∈ walked_of es, declared_with_arity domain x ∧ variables_resolve curr_action bv1 x
  | [], bv, bv1, h => by
    simp only [check_sub_exprs, Option.some.injEq, Except.ok.injEq] at h
    subst h
    exact ⟨by simp [bound_by_of], fun x hx => by simp [walked_of] at hx⟩
  | e :: es, bv, bv1, h => by
    simp only [check_sub_exprs] at h
    cases hc : check_action_condition fuel wh domain curr_action e bv with
    | none => simp [hc] at h
    | some r =>
      cases r with
      | error err => simp [hc] at h
      | ok bv0 =>
        simp only [hc] at h
        obtain ⟨hb0, hw0⟩ := walk_guarantees fuel wh domain curr_action e bv bv0 hc
        obtain ⟨hb1, hw1⟩ := walk_list_guarantees fuel wh domain curr_action es bv0 bv1 h
        refine ⟨by rw [hb1, hb0, bound_by_of, List.append_assoc], ?_⟩
        intro x hx
        simp only [walked_of, List.mem_append] at hx
        rcases hx with hx | hx
        · obtain ⟨hd, hv⟩ := hw0 x hx
          refine ⟨hd, variables_resolve_mono curr_action bv0 bv1 x ?_ hv⟩
          intro q hq
          rw [hb1]
          exact List.mem_append_left _ hq
        · exact hw1 x hx
end

theorem ActionSemantics_ok_conditions (fuel : Nat) (wh : iterator_type) (parsed : Action)
    (domain : Domain) (r : Action) (h : ActionSemantics fuel wh parsed domain = some (.ok r)) :
    ∃ bv bv1, check_action_condition fuel wh domain parsed parsed.precondition [] = some (.ok bv) ∧
      check_action_condition fuel wh domain parsed parsed.effect bv = some (.ok bv1) := by
  unfold ActionSemantics at h
  cases hp : check_action_params wh (typing_required domain) domain parsed.action_params with
  | error e => simp [hp] at h
  | ok u =>
    simp only [hp] at h
    cases hc : check_action_condition fuel wh domain parsed parsed.precondition [] with
    | none => simp [hc] at h
    | some res =>
      cases res with
      | error e => simp [hc] at h
      | ok bv =>
        simp only [hc] at h
        cases he : check_action_condition fuel wh domain parsed parsed.effect bv with
        | none => simp [he] at h
        | some res1 =>
          cases res1 with
          | error e => simp [he] at h
          | ok bv1 => exact ⟨bv, bv1, rfl, he⟩

/-- C11 (as it is stated, refuted): the action whose effect is `(when (q) (p ?x))` is
accepted in the domain that declares only `(p ?x)`, although the PREDICATE-kind
expression `(q)` occurs inside its effect and no declared predicate is named `q`. -/
theorem undeclared_predicate_under_when :
    ActionSemantics 0 0 action_cond_effect dom_unary = some (.ok action_cond_effect) ∧
      Expression.mk .PREDICATE (.predicate (.mk "q" []))
        ∈ subexpressions action_cond_effect.effect ∧
      ∀ p ∈ dom_unary.predicates, p.1 ≠ "q" := by
  refine ⟨rfl, ?_, by decide⟩
  simp [action_cond_effect, subexpressions, subexpressions_of]

/-- C11 (amended): whenever `ActionSemantics` succeeds on an action, every
PREDICATE-kind Predicate node that the walk reaches in the precondition or the effect
(the condition itself, the body of a reached quantified formula, a direct argument of
a reached BOOL node) names a declared predicate and has as many arguments as its
declaration. -/
theorem walked_predicates_declared (fuel : Nat) (wh : iterator_type) (domain : Domain)
    (parsed r : Action) (h : ActionSemantics fuel wh parsed domain = some (.ok r)) :
    ∀ function arguments,
      Expression.mk .PREDICATE (.predicate (.mk function arguments))
        ∈ walked parsed.precondition ++ walked parsed.effect →
      ∃ defined_pred,
        domain.predicates.find? (fun p => function == p.1) = some defined_pred ∧
        defined_pred.2.length = arguments.length := by
  obtain ⟨bv, bv1, hpre, heff⟩ := ActionSemantics_ok_conditions fuel wh parsed domain r h
  intro function arguments hx
  rcases List.mem_append.mp hx with hx | hx
  · exact ((walk_guarantees fuel wh domain parsed _ _ _ hpre).2 _ hx).1 function arguments rfl
  · exact ((walk_guarantees fuel wh domain parsed _ _ _ heff).2 _ hx).1 function arguments rfl

theorem walked_predicates_declared_witness :
    ∃ defined_pred,
      dom_typed.predicates.find? (fun p => "p" == p.1) = some defined_pred ∧
      defined_pred.2.length = [Expression.mk .ATOM (.atom "?y")].length :=
  walked_predicates_declared 2 0 dom_typed action_forall action_forall rfl "p"
    [.mk .ATOM (.atom "?y")] (by simp [action_forall, walked, walked_of])

/-- C12 (as it is stated, refuted): the action whose precondition is `(= ?z 0)` is
accepted, although the atom `?z` occurs inside its precondition, no quantified
formula occurs in the action and no parameter is named `z`. -/
theorem unbound_variable_under_comparison :
    ActionSemantics 0 0 action_comparison dom_unary = some (.ok action_comparison) ∧
      Expression.mk .ATOM (.atom "?z") ∈ subexpressions action_comparison.precondition ∧
      front "?z" = some '?' ∧ substr "?z" 1 = "z" ∧
      all_bound_by action_comparison.precondition ++ all_bound_by action_comparison.effect = [] ∧
      ∀ q ∈ action_comparison.action_params, q.1 ≠ "z" := by
  refine ⟨rfl, ?_, rfl, rfl, rfl, by decide⟩
  simp [action_comparison, subexpressions, subexpressions_of]

/-- C12 (amended): whenever `ActionSemantics` succeeds on an action, every atom
beginning with a question mark that is a direct argument of a PREDICATE-kind
Predicate node reached by the walk has a name (without the question mark) equal to
the name of a variable bound by a quantified formula that the walk reaches in the
precondition or the effect, or to the name of a parameter of the action. -/
theorem walked_variables_bound (fuel : Nat) (wh : iterator_type) (domain : Domain)
    (parsed r : Action) (h : ActionSemantics fuel wh parsed domain = some (.ok r)) :
    ∀ function arguments,
      Expression.mk .PREDICATE (.predicate (.mk function arguments))
        ∈ walked parsed.precondition ++ walked parsed.effect →
      ∀ arg ∈ arguments, ∀ type a, arg = Expression.mk type (.atom a) → front a = some '?' →
        (∃ q ∈ bound_by parsed.precondition ++ bound_by parsed.effect, q.1 = substr a 1) ∨
          ∃ q ∈ parsed.action_params, q.1 = substr a 1 := by
  obtain ⟨bv, bv1, hpre, heff⟩ := ActionSemantics_ok_conditions fuel wh parsed domain r h
  obtain ⟨hb, hw⟩ := walk_guarantees fuel wh domain parsed _ _ _ hpre
  obtain ⟨hb1, hw1⟩ := walk_guarantees fuel wh domain parsed _ _ _ heff
  rw [List.nil_append] at hb
  subst hb
  subst hb1
  intro function arguments hx
  rcases List.mem_append.mp hx with hx | hx
  · exact variables_resolve_mono parsed _ _ _ (fun q hq => List.mem_append_left _ hq)
      (hw _ hx).2 function arguments rfl
  · exact (hw1 _ hx).2 function arguments rfl

theorem walked_variables_bound_witness :
    (∃ q ∈ bound_by action_forall.precondition ++ bound_by action_forall.effect,
        q.1 = substr "?y" 1) ∨
      ∃ q ∈ action_forall.action_params, q.1 = substr "?y" 1 :=
  walked_variables_bound 2 0 dom_typed action_forall action_forall rfl "p"
    [.mk .ATOM (.atom "?y")] (by simp [action_forall, walked, walked_of])
    (.mk .ATOM (.atom "?y")) (List.mem_singleton.mpr rfl) .ATOM "?y" rfl rfl

/-! ## The entry points of `PddlParser` -/

theorem parse_with_handlers_ok_iff {α : Type} (failed : String)
    (phrase_parse : String → phrase_parse_outcome α) (text : String) (attr : α) :
    (parse_with_handlers failed phrase_parse text = some (.ok attr) ↔
      ∃ iter warnings, phrase_parse text = .returned true iter attr warnings) ∧
    (∀ iter a warnings, phrase_parse text = .returned false iter a warnings →
      parse_with_handlers failed phrase_parse text
        = some (.error (.PddlParserException failed))) := by
  unfold parse_with_handlers
  cases hp : phrase_parse text with
  | returned r iter a w =>
    cases r
    · simp
    · simp only [Bool.true_eq_false, if_false, Option.some.injEq, Except.ok.injEq]
      constructor
      · constructor
        · intro h; exact ⟨iter, w, by rw [h]⟩
        · rintro ⟨iter1, w1, h⟩
          injection h with _ _ h3 _
      · intro iter1 a1 w1 h
        injection h with h1 _ _ _
        cases h1
  | expectation_failure iter first what expectation =>
    constructor
    · constructor
      · intro h
        cases hc : getErrorContext text iter text.length first with
        | none => simp [hc] at h
        | some c => simp [hc] at h
      · rintro ⟨iter1, w1, h⟩; cases h
    · intro iter1 a1 w1 h; cases h
  | semantics_exception iter e =>
    constructor
    · constructor
      · intro h
        cases hc : getErrorContext text iter text.length e.pos with
        | none => simp [hc] at h
        | some c => simp [hc] at h
      · rintro ⟨iter1, w1, h⟩; cases h
    · intro iter1 a1 w1 h; cases h

/-- Whatever `phrase_parse` does, each entry point returns the AST exactly when
`phrase_parse` returns true, and raises `PddlParserException` when it returns
false. -/
theorem entry_points_follow_phrase_parse (text : String)
    (domain_grammar : String → phrase_parse_outcome Domain)
    (problem_grammar : String → phrase_parse_outcome Problem)
    (formula_grammar : String → phrase_parse_outcome Expression) :
    (∀ dom, parseDomain domain_grammar text = some (.ok dom) ↔
      ∃ iter warnings, domain_grammar text = .returned true iter dom warnings) ∧
    (∀ prob, parseProblem problem_grammar text = some (.ok prob) ↔
      ∃ iter warnings, problem_grammar text = .returned true iter prob warnings) ∧
    (∀ formula, parseFormula formula_grammar text = some (.ok formula) ↔
      ∃ iter warnings, formula_grammar text = .returned true iter formula warnings) ∧
    (∀ iter dom warnings, domain_grammar text = .returned false iter dom warnings →
      parseDomain domain_grammar text
        = some (.error (.PddlParserException "Parsing PDDL domain string failed!"))) ∧
    (∀ iter prob warnings, problem_grammar text = .returned false iter prob warnings →
      parseProblem problem_grammar text
        = some (.error (.PddlParserException "Parsing PDDL problem string failed!"))) ∧
    (∀ iter formula warnings, formula_grammar text = .returned false iter formula warnings →
      parseFormula formula_grammar text
        = some (.error (.PddlParserException "Parsing PDDL formula string failed!"))) := by
  have hproblem : ∀ prob, (parseProblem problem_grammar text = some (.ok prob) ↔
        ∃ iter warnings, problem_grammar text = .returned true iter prob warnings) ∧
      (∀ iter a warnings, problem_grammar text = .returned false iter a warnings →
        parseProblem problem_grammar text
          = some (.error (.PddlParserException "Parsing PDDL problem string failed!"))) := by
    intro prob
    unfold parseProblem
    cases hp : problem_grammar text with
    | returned r iter a w =>
      cases r
      · simp
      · simp only [Bool.true_eq_false, if_false, Option.some.injEq, Except.ok.injEq]
        constructor
        · constructor
          · intro h; exact ⟨iter, w, by rw [h]⟩
          · rintro ⟨iter1, w1, h⟩
            injection h with _ _ h3 _
        · intro iter1 a1 w1 h
          injection h with h1 _ _ _
          cases h1
    | expectation_failure iter first what expectation =>
      constructor
      · constructor
        · intro h
          cases hc : getErrorContext text iter text.length first with
          | none => simp [hc] at h
          | some c => simp [hc] at h
        · rintro ⟨iter1, w1, h⟩; cases h
      · intro iter1 a1 w1 h; cases h
    | semantics_exception iter e =>
      constructor
      · constructor
        · intro h; simp at h
        · rintro ⟨iter1, w1, h⟩; cases h
      · intro iter1 a1 w1 h; cases h
  refine ⟨fun dom => (parse_with_handlers_ok_iff _ domain_grammar text dom).1,
    fun prob => (hproblem prob).1,
    fun formula => (parse_with_handlers_ok_iff _ formula_grammar text formula).1,
    (parse_with_handlers_ok_iff _ domain_grammar text dom_unary).2,
    (hproblem problem_empty).2,
    (parse_with_handlers_ok_iff _ formula_grammar text default_expression).2⟩

/-! ## `getErrorContext` -/

/-- C20 (the code at a text that begins with a null character): for the text made
of a null character and `x` and the error position 1, the line begins at position 0,
so one character lies between the beginning of the line and the error position, but
the caret is preceded by no blank: the loop that is to skip line breaks at the
beginning of the line skips the null character too, since `strchr` finds the
terminator of the string it searches. -/
theorem caret_misplaced_after_nul :
    getErrorContext text_nul_x 0 2 1
        = some (" line:1, col:2\n" ++ text_nul_x ++ "\n" ++ String.mk (List.replicate 0 ' ')
            ++ "^ --- parsing halted here\n") ∧
      get_line_start text_nul_x 0 1 = 0 ∧ get_line_end text_nul_x 1 2 = 2 ∧
      1 - get_line_start text_nul_x 0 1 = 1 :=
  ⟨rfl, rfl, rfl, rfl⟩

/-! ## The scope of quantifier bindings -/

/-- C21: the action `action_leak` is accepted although `?y`, which is no parameter,
is used after the quantified formula that binds it, in a later sibling of the
enclosing conjunction and in the effect; the same use in an earlier sibling, or in
the precondition for a quantified formula of the effect, raises
`PddlParameterException`. -/
theorem quantifier_bindings_leak :
    ActionSemantics 2 0 action_leak dom_typed = some (.ok action_leak) ∧
      action_leak.action_params = [] ∧
      action_leak.precondition = .mk .BOOL (.predicate (.mk "and" [forall_y, p_of_y])) ∧
      action_leak.effect = p_of_y ∧
      check_action_condition 2 0 dom_typed action_leak action_leak.precondition []
        = some (.ok [("y", "thing")]) ∧
      check_action_condition 2 0 dom_typed action_leak action_leak.effect [("y", "thing")]
        = some (.ok [("y", "thing")]) ∧
      check_action_condition 2 0 dom_typed action_leak p_of_y []
        = some (.error (PddlParameterException "Unknown Parameter ?y" 0)) ∧
      ActionSemantics 2 0 action_use_before_sibling dom_typed
        = some (.error (PddlParameterException "Unknown Parameter ?y" 0)) ∧
      ActionSemantics 2 0 action_use_before_effect dom_typed
        = some (.error (PddlParameterException "Unknown Parameter ?y" 0)) :=
  ⟨rfl, rfl, rfl, rfl, rfl, rfl, rfl, rfl, rfl⟩

mutual
theorem bound_by_walked :
    ∀ e : Expression, bound_by e = (walked e).flatMap formula_args
  | .mk type (.atom a) => by simp [bound_by, walked, formula_args]
  | .mk type (.quantified (.mk quantifier args sub_expr)) => by
    simp [bound_by, walked, formula_args, bound_by_walked sub_expr]
  | .mk type (.predicate (.mk function arguments)) => by
    cases type <;> simp [bound_by, walked, formula_args, bound_by_of_walked arguments]
theorem bound_by_of_walked :
    ∀ es : List Expression, bound_by_of es = (walked_of es).flatMap formula_args
  | [] => by simp [bound_by_of, walked_of]
  | e :: es => by
    simp [bound_by_of, walked_of, bound_by_walked e, bound_by_of_walked es]
end

/-- C23: when `check_action_condition` succeeds, the final `bound_vars` is the initial
list followed by the `args` of the quantified formulas that the walk reaches through
BOOL-kind Predicate nodes and quantified formulas, in the order of the walk; the
initial list is a prefix of it, and a Predicate node of another kind contributes
nothing, whatever lies below it. -/
theorem bound_vars_accumulate (fuel : Nat) (wh : iterator_type) (domain : Domain)
    (curr_action : Action) (e : Expression) (bound_vars final : string_pairs_type)
    (h : check_action_condition fuel wh domain curr_action e bound_vars = some (.ok final)) :
    final = bound_vars ++ (walked e).flatMap formula_args ∧
    final = bound_vars ++ bound_by e ∧
    (∃ rest, final = bound_vars ++ rest) ∧
    (∀ type function arguments, type ≠ .BOOL →
      bound_by (.mk type (.predicate (.mk function arguments))) = [] ∧
      walked (.mk type (.predicate (.mk function arguments)))
        = [.mk type (.predicate (.mk function arguments))]) := by
  have hb := (walk_guarantees fuel wh domain curr_action e bound_vars final h).1
  refine ⟨by rw [hb, bound_by_walked], hb, ⟨_, hb⟩, ?_⟩
  intro type function arguments hne
  cases type <;> simp_all [bound_by, walked]

theorem bound_vars_accumulate_witness :
    [("w", "thing"), ("y", "thing")]
        = [("w", "thing")] ++ (walked action_leak.precondition).flatMap formula_args ∧
    [("w", "thing"), ("y", "thing")] = [("w", "thing")] ++ bound_by action_leak.precondition :=
  ⟨(bound_vars_accumulate 2 0 dom_typed action_leak action_leak.precondition [("w", "thing")]
    [("w", "thing"), ("y", "thing")] rfl).1,
   (bound_vars_accumulate 2 0 dom_typed action_leak action_leak.precondition [("w", "thing")]
    [("w", "thing"), ("y", "thing")] rfl).2.1⟩

/-! ## Termination of `check_type` -/

theorem check_type_of_chain (domain : Domain) (wh : iterator_type) (expected : String) :
    ∀ (k : Nat) (got x : String), supertype_chain domain got k = some x →
      (x = expected ∨ domain.types.find? (fun p => p.1 == x) = none) →
      ∃ b, check_type (k + 1) wh got expected domain = some b := by
  intro k
  induction k with
  | zero =>
    intro got x hx hend
    simp only [supertype_chain, Option.some.injEq] at hx
    subst hx
    rcases hend with h | h
    · exact ⟨true, by simp [check_type, h]⟩
    · by_cases he : got = expected
      · exact ⟨true, by simp [check_type, he]⟩
      · exact ⟨false, by simp [check_type, he, h]⟩
  | succ n ih =>
    intro got x hx hend
    by_cases he : got = expected
    · exact ⟨true, by simp [check_type, he]⟩
    · simp only [supertype_chain] at hx
      cases hf : domain.types.find? (fun p => p.1 == got) with
      | none => simp [hf] at hx
      | some p =>
        simp only [hf] at hx
        obtain ⟨b, hb⟩ := ih p.2 x hx hend
        refine ⟨b, ?_⟩
        rw [check_type]
        simp only [ne_eq, he, not_false_eq_true, if_true, hf]
        exact hb

theorem chain_of_check_type (domain : Domain) (wh : iterator_type) (expected : String) :
    ∀ (fuel : Nat) (got : String) (b : Bool),
      check_type fuel wh got expected domain = some b →
      ∃ k x, k < fuel ∧ supertype_chain domain got k = some x ∧
        (x = expected ∨ domain.types.find? (fun p => p.1 == x) = none) := by
  intro fuel
  induction fuel with
  | zero => intro got b h; simp [check_type] at h
  | succ n ih =>
    intro got b h
    by_cases he : got = expected
    · exact ⟨0, got, by omega, rfl, Or.inl he⟩
    · rw [check_type] at h
      simp only [ne_eq, he, not_false_eq_true, if_true] at h
      cases hf : domain.types.find? (fun p => p.1 == got) with
      | none => exact ⟨0, got, by omega, rfl, Or.inr hf⟩
      | some p =>
        simp only [hf] at h
        obtain ⟨k, x, hk, hx, hend⟩ := ih p.2 b h
        exact ⟨k + 1, x, by omega, by simp [supertype_chain, hf, hx], hend⟩

theorem check_type_self_cycle (wh : iterator_type) :
    ∀ fuel, check_type fuel wh "a" "c" dom_self_cycle = none := by
  intro fuel
  induction fuel with
  | zero => rfl
  | succ n ih =>
    rw [check_type]
    simpa [dom_self_cycle] using ih

theorem check_type_two_cycle (wh : iterator_type) :
    ∀ fuel, check_type fuel wh "a" "c" dom_two_cycle = none ∧
      check_type fuel wh "b" "c" dom_two_cycle = none := by
  intro fuel
  induction fuel with
  | zero => exact ⟨rfl, rfl⟩
  | succ n ih =>
    constructor
    · rw [check_type]
      simpa [dom_two_cycle] using ih.2
    · rw [check_type]
      simpa [dom_two_cycle] using ih.1

/-- C24: `check_type` returns exactly when the chain of first supertypes from `got`
reaches `expected` or a name that is the subtype of no pair, and then within one call
more than the number of steps; on a domain whose type declarations contain no cycle
it returns for all arguments within `|types| + 1` calls; with the types `a - a`, or
`a - b` and `b - a`, and the expected type `c`, it returns with no amount of fuel. -/
theorem check_type_terminates_iff (domain : Domain) (wh : iterator_type)
    (got expected : String) :
    ((∃ fuel b, check_type fuel wh got expected domain = some b) ↔
      ∃ k x, supertype_chain domain got k = some x ∧
        (x = expected ∨ domain.types.find? (fun p => p.1 == x) = none)) ∧
    (∀ k x, supertype_chain domain got k = some x →
      (x = expected ∨ domain.types.find? (fun p => p.1 == x) = none) →
      ∃ b, check_type (k + 1) wh got expected domain = some b) ∧
    (acyclic_types domain →
      ∃ b, check_type (domain.types.length + 1) wh got expected domain = some b) ∧
    (∀ fuel, check_type fuel wh "a" "c" dom_self_cycle = none) ∧
    (∀ fuel, check_type fuel wh "a" "c" dom_two_cycle = none) := by
  refine ⟨⟨?_, ?_⟩, fun k x => check_type_of_chain domain wh expected k got x, ?_,
    check_type_self_cycle wh, fun fuel => (check_type_two_cycle wh fuel).1⟩
  · rintro ⟨fuel, b, h⟩
    obtain ⟨k, x, _, hx, hend⟩ := chain_of_check_type domain wh expected fuel got b h
    exact ⟨k, x, hx, hend⟩
  · rintro ⟨k, x, hx, hend⟩
    obtain ⟨b, hb⟩ := check_type_of_chain domain wh expected k got x hx hend
    exact ⟨k + 1, b, hb⟩
  · intro hac
    exact check_type_returns domain wh got expected _ hac (Nat.lt_succ_self _)

/-! ## Errors when typing is disabled -/

theorem check_argument_untyped (fuel : Nat) (wh : iterator_type) (domain : Domain)
    (curr_action : Action) (bound_vars : string_pairs_type) (defined_pred : predicate_type)
    (i : Nat) (arg : Expression) (e : PddlException)
    (h : check_argument fuel wh domain curr_action bound_vars false defined_pred i arg
      = some (.error e)) :
    not_a_type_error e := by
  obtain ⟨type, payload⟩ := arg
  cases payload with
  | predicate p =>
    simp only [check_argument, Expression.expression, Option.some.injEq, Except.error.injEq] at h
    exact Or.inr (Or.inl ⟨_, _, h.symm⟩)
  | quantified f =>
    simp only [check_argument, Expression.expression, Option.some.injEq, Except.error.injEq] at h
    exact Or.inr (Or.inl ⟨_, _, h.symm⟩)
  | atom a =>
    by_cases ha : front a = some '?'
    · rw [check_argument_variable _ _ _ _ _ _ _ _ _ _ ha] at h
      cases hv : variable_type wh curr_action bound_vars a with
      | error e1 =>
        simp only [hv, Option.some.injEq, Except.error.injEq] at h
        subst h
        obtain ⟨he, _, _⟩ := (variable_type_error_iff _ _ _ _ _).mp hv
        exact Or.inr (Or.inr (Or.inr ⟨_, _, he⟩))
      | ok t =>
        simp only [hv] at h
        cases hc : check_type fuel wh t (declared_type defined_pred i) domain with
        | none => simp [hc] at h
        | some c => simp [hc] at h
    · simp only [check_argument, Expression.expression, ne_eq, ha, not_false_eq_true, if_true] at h
      cases hm : constant_match fuel wh domain (declared_type defined_pred i) a
          domain.constants false "" with
      | none => simp [hm] at h
      | some r =>
        obtain ⟨m, found, ty⟩ := r
        cases m
        · cases found
          · simp only [hm, if_true, Option.some.injEq, Except.error.injEq] at h
            exact Or.inr (Or.inr (Or.inl ⟨_, _, h.symm⟩))
          · simp [hm] at h
        · simp [hm] at h

theorem check_arguments_untyped (fuel : Nat) (wh : iterator_type) (domain : Domain)
    (curr_action : Action) (bound_vars : string_pairs_type) (defined_pred : predicate_type)
    (e : PddlException) (args : List Expression) (i : Nat)
    (h : check_arguments fuel wh domain curr_action bound_vars false defined_pred i args
      = some (.error e)) :
    not_a_type_error e := by
  obtain ⟨j, arg, hj⟩ := check_arguments_error _ _ _ _ _ _ _ _ _ _ h
  exact check_argument_untyped _ _ _ _ _ _ _ _ _ hj

mutual
theorem condition_errors_untyped (fuel : Nat) (wh : iterator_type) (domain : Domain)
    (curr_action : Action) (hty : typing_required domain = false) :
    ∀ (e : Expression) (bv : string_pairs_type) (err : PddlException),
      check_action_condition fuel wh domain curr_action e bv = some (.error err) →
      not_a_type_error err
  | .mk type (.atom a), bv, err, h => by
    simp only [check_action_condition, Option.some.injEq, Except.error.injEq] at h
    exact Or.inl ⟨_, _, h.symm⟩
  | .mk type (.quantified (.mk quantifier args sub_expr)), bv, err, h => by
    simp only [check_action_condition] at h
    exact condition_errors_untyped fuel wh domain curr_action hty sub_expr (bv ++ args) err h
  | .mk type (.predicate (.mk function arguments)), bv, err, h => by
    simp only [check_action_condition] at h
    by_cases hB : type = .BOOL
    · subst hB
      simp only [check_action_predicate] at h
      exact sub_exprs_errors_untyped fuel wh domain curr_action hty arguments bv err h
    · by_cases hP : type = .PREDICATE
      · subst hP
        simp only [check_action_predicate, hty] at h
        cases hf : domain.predicates.find? (fun p => function == p.1) with
        | none =>
          simp only [hf, Option.some.injEq, Except.error.injEq] at h
          exact Or.inr (Or.inl ⟨_, _, h.symm⟩)
        | some dp =>
          simp only [hf] at h
          by_cases hlen : dp.2.length = arguments.length
          · simp only [hlen, ne_eq, not_true_eq_false, if_false] at h
            cases hc : check_arguments fuel wh domain curr_action bv false dp 0 arguments with
            | none => simp [hc] at h
            | some r =>
              cases r with
              | ok u => simp [hc] at h
              | error e1 =>
                simp only [hc, Option.some.injEq, Except.error.injEq] at h
                subst h
                exact check_arguments_untyped _ _ _ _ _ _ _ _ _ hc
          · simp only [ne_eq, hlen, not_false_eq_true, if_true, Option.some.injEq,
              Except.error.injEq] at h
            exact Or.inr (Or.inl ⟨_, _, h.symm⟩)
      · rw [check_action_predicate_other fuel wh domain curr_action bv type _ hB hP] at h
        simp at h
theorem sub_exprs_errors_untyped (fuel : Nat) (wh : iterator_type) (domain : Domain)
    (curr_action : Action) (hty : typing_required domain = false) :
    ∀ (es : List Expression) (bv : string_pairs_type) (err : PddlException),
      check_sub_exprs fuel wh domain curr_action es bv = some (.error err) →
      not_a_type_error err
  | [], bv, err, h => by simp [check_sub_exprs] at h
  | e :: es, bv, err, h => by
    simp only [check_sub_exprs] at h
    cases hc : check_action_condition fuel wh domain curr_action e bv with
    | none => simp [hc] at h
    | some r =>
      cases r with
      | error e1 =>
        simp only [hc, Option.some.injEq, Except.error.injEq] at h
        subst h
        exact condition_errors_untyped fuel wh domain curr_action hty e bv _ hc
      | ok bv0 =>
        simp only [hc] at h
        exact sub_exprs_errors_untyped fuel wh domain curr_action hty es bv0 err h
end

/-- C22: when typing is disabled for the domain, an error raised by
`check_action_condition` is never a `PddlTypeException`: it is a
`PddlExpressionException`, a `PddlPredicateException`, a `PddlConstantException` or a
`PddlParameterException`, for every expression, action and list of bound
variables. -/
theorem no_type_error_when_untyped (fuel : Nat) (wh : iterator_type) (domain : Domain)
    (curr_action : Action) (e : Expression) (bound_vars : string_pairs_type)
    (err : PddlException) (hty : typing_required domain = false)
    (h : check_action_condition fuel wh domain curr_action e bound_vars = some (.error err)) :
    (∀ msg pos, err ≠ PddlTypeException msg pos) ∧
    ((∃ msg pos, err = PddlExpressionException msg pos) ∨
      (∃ msg pos, err = PddlPredicateException msg pos) ∨
      (∃ msg pos, err = PddlConstantException msg pos) ∨
      (∃ msg pos, err = PddlParameterException msg pos)) := by
  have hk := condition_errors_untyped fuel wh domain curr_action hty e bound_vars err h
  refine ⟨?_, hk⟩
  intro msg pos heq
  subst heq
  rcases hk with ⟨_, _, h1⟩ | ⟨_, _, h1⟩ | ⟨_, _, h1⟩ | ⟨_, _, h1⟩ <;> cases h1

theorem no_type_error_when_untyped_witness :
    ((∀ msg pos, PddlParameterException "Unknown Parameter ?y" 0 ≠ PddlTypeException msg pos) ∧
      ((∃ msg pos, PddlParameterException "Unknown Parameter ?y" 0
          = PddlExpressionException msg pos) ∨
        (∃ msg pos, PddlParameterException "Unknown Parameter ?y" 0
          = PddlPredicateException msg pos) ∨
        (∃ msg pos, PddlParameterException "Unknown Parameter ?y" 0
          = PddlConstantException msg pos) ∨
        (∃ msg pos, PddlParameterException "Unknown Parameter ?y" 0
          = PddlParameterException msg pos))) ∧
    check_action_condition 1 0 dom_untyped_constant action_untyped action_untyped.precondition []
      = some (.ok []) :=
  ⟨no_type_error_when_untyped 1 0 dom_untyped_constant action_untyped p_of_y [] _ rfl rfl, rfl⟩

/-! ## Constants declared in several groups -/

theorem constant_match_cases (fuel : Nat) (wh : iterator_type) (domain : Domain)
    (expected : String) (a : Atom) :
    ∀ (cs : pairs_multi_consts) (found : Bool) (ty : String),
      (∀ g ∈ cs, a ∈ g.1 → ∃ b, check_type fuel wh g.2 expected domain = some b) →
      ((∃ g ∈ cs, a ∈ g.1 ∧ check_type fuel wh g.2 expected domain = some true) ∧
        ∃ ty1, constant_match fuel wh domain expected a cs found ty = some (true, true, ty1)) ∨
      ((∀ g ∈ cs, a ∈ g.1 → check_type fuel wh g.2 expected domain = some false) ∧
        ∃ found1 ty1,
          constant_match fuel wh domain expected a cs found ty = some (false, found1, ty1) ∧
          (found1 = true ↔ found = true ∨ ∃ g ∈ cs, a ∈ g.1)) := by
  intro cs
  induction cs with
  | nil =>
    intro found ty _
    exact Or.inr ⟨fun g hg => absurd hg (List.not_mem_nil g),
      found, ty, rfl, by simp⟩
  | cons c cs ih =>
    intro found ty hret
    have hret1 : ∀ g ∈ cs, a ∈ g.1 → ∃ b, check_type fuel wh g.2 expected domain = some b :=
      fun g hg => hret g (List.mem_cons_of_mem _ hg)
    by_cases hc : a ∈ c.1
    · obtain ⟨b, hb⟩ := hret c (List.mem_cons_self _ _) hc
      cases b
      · rcases ih true (ty ++ " " ++ c.2) hret1 with ⟨⟨g, hg, hga, hgt⟩, ty1, hm⟩ |
          ⟨hall, found1, ty1, hm, hiff⟩
        · exact Or.inl ⟨⟨g, List.mem_cons_of_mem _ hg, hga, hgt⟩, ty1,
            by simp [constant_match, hc, hb, hm]⟩
        · refine Or.inr ⟨?_, found1, ty1, by simp [constant_match, hc, hb, hm], ?_⟩
          · intro g hg hga
            rcases List.mem_cons.mp hg with rfl | hg
            · exact hb
            · exact hall g hg hga
          · constructor
            · intro _
              exact Or.inr ⟨c, List.mem_cons_self _ _, hc⟩
            · intro _
              exact hiff.mpr (Or.inl rfl)
      · exact Or.inl ⟨⟨c, List.mem_cons_self _ _, hc, hb⟩, ty ++ " " ++ c.2,
          by simp [constant_match, hc, hb]⟩
    · rcases ih found ty hret1 with ⟨⟨g, hg, hga, hgt⟩, ty1, hm⟩ |
        ⟨hall, found1, ty1, hm, hiff⟩
      · exact Or.inl ⟨⟨g, List.mem_cons_of_mem _ hg, hga, hgt⟩, ty1,
          by simp [constant_match, hc, hm]⟩
      · refine Or.inr ⟨?_, found1, ty1, by simp [constant_match, hc, hm], ?_⟩
        · intro g hg hga
          rcases List.mem_cons.mp hg with rfl | hg
          · exact absurd hga hc
          · exact hall g hg hga
        · rw [hiff]
          constructor
          · rintro (h | ⟨g, hg, hga⟩)
            · exact Or.inl h
            · exact Or.inr ⟨g, List.mem_cons_of_mem _ hg, hga⟩
          · rintro (h | ⟨g, hg, hga⟩)
            · exact Or.inl h
            · rcases List.mem_cons.mp hg with rfl | hg
              · exact absurd hga hc
              · exact Or.inr ⟨g, hg, hga⟩

theorem check_argument_constant_typed (fuel : Nat) (wh : iterator_type) (domain : Domain)
    (curr_action : Action) (bound_vars : string_pairs_type) (defined_pred : predicate_type)
    (i : Nat) (type : ExpressionType) (a : Atom) (ha : front a ≠ some '?')
    (hret : ∀ g ∈ domain.constants, a ∈ g.1 →
      ∃ b, check_type fuel wh g.2 (declared_type defined_pred i) domain = some b) :
    ((∃ g ∈ domain.constants, a ∈ g.1 ∧
        check_type fuel wh g.2 (declared_type defined_pred i) domain = some true) ∧
      check_argument fuel wh domain curr_action bound_vars true defined_pred i
        (.mk type (.atom a)) = some (.ok ())) ∨
    ((∃ g ∈ domain.constants, a ∈ g.1) ∧
      (∀ g ∈ domain.constants, a ∈ g.1 →
        check_type fuel wh g.2 (declared_type defined_pred i) domain = some false) ∧
      ∃ arg_type, check_argument fuel wh domain curr_action bound_vars true defined_pred i
        (.mk type (.atom a))
          = some (.error (PddlTypeException (type_mismatch_message i defined_pred arg_type) wh))) ∨
    ((∀ g ∈ domain.constants, a ∉ g.1) ∧
      check_argument fuel wh domain curr_action bound_vars true defined_pred i
        (.mk type (.atom a))
          = some (.error (PddlConstantException ("Unknown constant " ++ a) wh))) := by
  rcases constant_match_cases fuel wh domain (declared_type defined_pred i) a
      domain.constants false "" hret with ⟨hex, ty1, hm⟩ | ⟨hall, found1, ty1, hm, hiff⟩
  · exact Or.inl ⟨hex, by simp [check_argument, Expression.expression, ha, hm]⟩
  · cases found1
    · have hno : ∀ g ∈ domain.constants, a ∉ g.1 := by
        intro g hg hga
        have := hiff.mpr (Or.inr ⟨g, hg, hga⟩)
        cases this
      exact Or.inr (Or.inr ⟨hno, by simp [check_argument, Expression.expression, ha, hm]⟩)
    · have hdecl : ∃ g ∈ domain.constants, a ∈ g.1 := by
        rcases hiff.mp rfl with h | h
        · cases h
        · exact h
      exact Or.inr (Or.inl ⟨hdecl, hall, ty1,
        by simp [check_argument, Expression.expression, ha, hm]⟩)

/-- C25: with typing enabled, for a declared predicate with matching arity whose
earlier arguments are accepted, and when `check_type` returns for the groups that
list the constant, a constant argument is accepted exactly when the type of at least
one group of `domain.constants` that lists it conforms to the declared type of the
argument, and the remaining arguments are then checked; a `PddlTypeException` is
raised for it exactly when some group lists it and no group that lists it has a
conforming type. -/
theorem constant_argument_conformance (fuel : Nat) (wh : iterator_type) (domain : Domain)
    (curr_action : Action) (bound_vars : string_pairs_type) (function : Atom)
    (defined_pred : predicate_type) (pre post : List Expression) (type : ExpressionType)
    (a : Atom) (hty : typing_required domain = true) (ha : front a ≠ some '?')
    (hfind : domain.predicates.find? (fun p => function == p.1) = some defined_pred)
    (hlen : defined_pred.2.length = (pre ++ Expression.mk type (.atom a) :: post).length)
    (hpre : check_arguments fuel wh domain curr_action bound_vars (typing_required domain)
      defined_pred 0 pre = some (.ok ()))
    (hret : ∀ g ∈ domain.constants, a ∈ g.1 →
      ∃ b, check_type fuel wh g.2 (declared_type defined_pred pre.length) domain = some b) :
    (check_argument fuel wh domain curr_action bound_vars true defined_pred pre.length
        (.mk type (.atom a)) = some (.ok ()) ↔
      ∃ g ∈ domain.constants, a ∈ g.1 ∧
        check_type fuel wh g.2 (declared_type defined_pred pre.length) domain = some true) ∧
    ((∃ g ∈ domain.constants, a ∈ g.1 ∧
        check_type fuel wh g.2 (declared_type defined_pred pre.length) domain = some true) →
      check_action_predicate fuel wh domain curr_action
          (.mk function (pre ++ Expression.mk type (.atom a) :: post)) .PREDICATE bound_vars
        = match check_arguments fuel wh domain curr_action bound_vars true defined_pred
            (pre.length + 1) post with
          | none => none
          | some (.error e) => some (.error e)
          | some (.ok ()) => some (.ok bound_vars)) ∧
    ((∃ msg, check_argument fuel wh domain curr_action bound_vars true defined_pred pre.length
        (.mk type (.atom a)) = some (.error (PddlTypeException msg wh))) ↔
      (∃ g ∈ domain.constants, a ∈ g.1) ∧
        ¬ ∃ g ∈ domain.constants, a ∈ g.1 ∧
          check_type fuel wh g.2 (declared_type defined_pred pre.length) domain = some true) ∧
    ((∃ g ∈ domain.constants, a ∈ g.1) →
      (¬ ∃ g ∈ domain.constants, a ∈ g.1 ∧
        check_type fuel wh g.2 (declared_type defined_pred pre.length) domain = some true) →
      ∃ arg_type, check_action_predicate fuel wh domain curr_action
          (.mk function (pre ++ Expression.mk type (.atom a) :: post)) .PREDICATE bound_vars
        = some (.error (PddlTypeException
            (type_mismatch_message pre.length defined_pred arg_type) wh))) := by
  have hat := check_action_predicate_at fuel wh domain curr_action bound_vars function
    defined_pred pre post (.mk type (.atom a)) hfind hlen hpre
  rw [hty] at hat
  rcases check_argument_constant_typed fuel wh domain curr_action bound_vars defined_pred
      pre.length type a ha hret with ⟨hex, hok⟩ | ⟨hdecl, hall, ty1, herr⟩ | ⟨hno, herr⟩
  · refine ⟨⟨fun _ => hex, fun _ => hok⟩, ?_, ?_, ?_⟩
    · intro _
      rw [hat, hok]
    · constructor
      · rintro ⟨msg, hmsg⟩
        rw [hok] at hmsg
        cases hmsg
      · rintro ⟨_, hnone⟩
        exact absurd hex hnone
    · intro _ hnone
      exact absurd hex hnone
  · have hnone : ¬ ∃ g ∈ domain.constants, a ∈ g.1 ∧
        check_type fuel wh g.2 (declared_type defined_pred pre.length) domain = some true := by
      rintro ⟨g, hg, hga, hgt⟩
      rw [hall g hg hga] at hgt
      cases hgt
    refine ⟨⟨?_, fun hex => absurd hex hnone⟩, fun hex => absurd hex hnone, ?_, ?_⟩
    · intro hok
      rw [herr] at hok
      cases hok
    · exact ⟨fun _ => ⟨hdecl, hnone⟩, fun _ => ⟨_, herr⟩⟩
    · intro _ _
      exact ⟨ty1, by rw [hat, herr]⟩
  · have hnone : ¬ ∃ g ∈ domain.constants, a ∈ g.1 ∧
        check_type fuel wh g.2 (declared_type defined_pred pre.length) domain = some true := by
      rintro ⟨g, hg, hga, _⟩
      exact hno g hg hga
    refine ⟨⟨?_, fun hex => absurd hex hnone⟩, fun hex => absurd hex hnone, ?_, ?_⟩
    · intro hok
      rw [herr] at hok
      cases hok
    · constructor
      · rintro ⟨msg, hmsg⟩
        rw [herr] at hmsg
        cases hmsg
      · rintro ⟨⟨g, hg, hga⟩, _⟩
        exact absurd hga (hno g hg)
    · rintro ⟨g, hg, hga⟩ _
      exact absurd hga (hno g hg)

theorem constant_argument_conformance_witness :
    check_action_predicate 4 0 dom_three_groups action_two_params
        (.mk "p" ([] ++ Expression.mk .ATOM (.atom "k") :: [])) .PREDICATE []
      = some (.ok []) :=
  (constant_argument_conformance 4 0 dom_three_groups action_two_params [] "p"
    ("p", [("x", "thing")]) [] [] .ATOM "k" rfl (by decide) rfl rfl rfl
    (by
      intro g hg _
      simp only [dom_three_groups, List.mem_cons, List.mem_singleton, List.not_mem_nil,
        or_false] at hg
      rcases hg with rfl | rfl | rfl
      · exact ⟨false, rfl⟩
      · exact ⟨true, rfl⟩
      · exact ⟨false, rfl⟩)).2.1
    ⟨(["j", "k"], "thing"), by simp [dom_three_groups], by simp, rfl⟩

/-! ## The walk returns when `check_type` does -/

theorem constant_match_returns (fuel : Nat) (wh : iterator_type) (domain : Domain)
    (expected : String) (a : Atom)
    (hret : ∀ got expected, ∃ b, check_type fuel wh got expected domain = some b) :
    ∀ (cs : pairs_multi_consts) (found : Bool) (ty : String),
      ∃ r, constant_match fuel wh domain expected a cs found ty = some r := by
  intro cs
  induction cs with
  | nil => intro found ty; exact ⟨_, rfl⟩
  | cons c cs ih =>
    intro found ty
    unfold constant_match
    split
    · obtain ⟨b, hb⟩ := hret c.2 expected
      cases b
      · simp only [hb]
        exact ih true _
      · (simp only [hb]; exact ⟨_, rfl⟩)
    · exact ih found ty

theorem check_argument_returns (fuel : Nat) (wh : iterator_type) (domain : Domain)
    (curr_action : Action) (bound_vars : string_pairs_type) (typing_enabled : Bool)
    (defined_pred : predicate_type) (i : Nat) (arg : Expression)
    (hret : ∀ got expected, ∃ b, check_type fuel wh got expected domain = some b) :
    ∃ r, check_argument fuel wh domain curr_action bound_vars typing_enabled defined_pred i arg
      = some r := by
  obtain ⟨type, payload⟩ := arg
  cases payload with
  | predicate p => (simp only [check_argument, Expression.expression]; exact ⟨_, rfl⟩)
  | quantified f => (simp only [check_argument, Expression.expression]; exact ⟨_, rfl⟩)
  | atom a =>
    by_cases ha : front a = some '?'
    · rw [check_argument_variable _ _ _ _ _ _ _ _ _ _ ha]
      cases hv : variable_type wh curr_action bound_vars a with
      | error e => exact ⟨_, rfl⟩
      | ok t =>
        obtain ⟨b, hb⟩ := hret t (declared_type defined_pred i)
        simp only [hb]
        split
        · exact ⟨_, rfl⟩
        · exact ⟨_, rfl⟩
    · obtain ⟨r, hr⟩ := constant_match_returns fuel wh domain (declared_type defined_pred i) a
        hret domain.constants false ""
      obtain ⟨m, found, ty⟩ := r
      simp only [check_argument, Expression.expression, ne_eq, ha, not_false_eq_true, if_true, hr]
      cases m
      · cases found
        · exact ⟨_, rfl⟩
        · simp only [Bool.true_eq_false, if_false]
          split
          · exact ⟨_, rfl⟩
          · exact ⟨_, rfl⟩
      · simp only []
        split
        · exact ⟨_, rfl⟩
        · exact ⟨_, rfl⟩

theorem check_arguments_returns (fuel : Nat) (wh : iterator_type) (domain : Domain)
    (curr_action : Action) (bound_vars : string_pairs_type) (typing_enabled : Bool)
    (defined_pred : predicate_type)
    (hret : ∀ got expected, ∃ b, check_type fuel wh got expected domain = some b) :
    ∀ (args : List Expression) (i : Nat),
      ∃ r, check_arguments fuel wh domain curr_action bound_vars typing_enabled defined_pred
        i args = some r := by
  intro args
  induction args with
  | nil => intro i; exact ⟨_, rfl⟩
  | cons arg rest ih =>
    intro i
    obtain ⟨r, hr⟩ := check_argument_returns fuel wh domain curr_action bound_vars
      typing_enabled defined_pred i arg hret
    unfold check_arguments
    cases r with
    | error e => (simp only [hr]; exact ⟨_, rfl⟩)
    | ok u =>
      simp only [hr]
      exact ih (i + 1)

mutual
theorem check_action_condition_returns (fuel : Nat) (wh : iterator_type) (domain : Domain)
    (curr_action : Action)
    (hret : ∀ got expected, ∃ b, check_type fuel wh got expected domain = some b) :
    ∀ (e : Expression) (bv : string_pairs_type),
      ∃ r, check_action_condition fuel wh domain curr_action e bv = some r
  | .mk type (.atom a), bv => by simp only [check_action_condition]; exact ⟨_, rfl⟩
  | .mk type (.quantified (.mk quantifier args sub_expr)), bv => by
    simp only [check_action_condition]
    exact check_action_condition_returns fuel wh domain curr_action hret sub_expr (bv ++ args)
  | .mk type (.predicate (.mk function arguments)), bv => by
    simp only [check_action_condition]
    by_cases hB : type = .BOOL
    · subst hB
      simp only [check_action_predicate]
      exact check_sub_exprs_returns fuel wh domain curr_action hret arguments bv
    · by_cases hP : type = .PREDICATE
      · subst hP
        simp only [check_action_predicate]
        cases hf : domain.predicates.find? (fun p => function == p.1) with
        | none => exact ⟨_, rfl⟩
        | some dp =>
          simp only []
          split
          · exact ⟨_, rfl⟩
          · obtain ⟨r, hr⟩ := check_arguments_returns fuel wh domain curr_action bv
              (typing_required domain) dp hret arguments 0
            cases r with
            | error e => (simp only [hr]; exact ⟨_, rfl⟩)
            | ok u => (simp only [hr]; exact ⟨_, rfl⟩)
      · exact ⟨_, check_action_predicate_other fuel wh domain curr_action bv type _ hB hP⟩
theorem check_sub_exprs_returns (fuel : Nat) (wh : iterator_type) (domain : Domain)
    (curr_action : Action)
    (hret : ∀ got expected, ∃ b, check_type fuel wh got expected domain = some b) :
    ∀ (es : List Expression) (bv : string_pairs_type),
      ∃ r, check_sub_exprs fuel wh domain curr_action es bv = some r
  | [], bv => by simp only [check_sub_exprs]; exact ⟨_, rfl⟩
  | e :: es, bv => by
    obtain ⟨r, hr⟩ := check_action_condition_returns fuel wh domain curr_action hret e bv
    simp only [check_sub_exprs]
    cases r with
    | error err => (simp only [hr]; exact ⟨_, rfl⟩)
    | ok bv0 =>
      simp only [hr]
      exact check_sub_exprs_returns fuel wh domain curr_action hret es bv0
end

theorem check_sub_exprs_atom_after (fuel : Nat) (wh : iterator_type) (domain : Domain)
    (curr_action : Action) (type : ExpressionType) (a : Atom) (post : List Expression) :
    ∀ (pre : List Expression) (bv bv1 : string_pairs_type),
      check_sub_exprs fuel wh domain curr_action pre bv = some (.ok bv1) →
      check_sub_exprs fuel wh domain curr_action (pre ++ .mk type (.atom a) :: post) bv
        = some (.error (PddlExpressionException ("Unexpected Atom in expression: " ++ a) wh)) := by
  intro pre
  induction pre with
  | nil =>
    intro bv bv1 _
    simp [check_sub_exprs, check_action_condition]
  | cons e es ih =>
    intro bv bv1 h
    simp only [check_sub_exprs] at h
    simp only [List.cons_append, check_sub_exprs]
    cases hc : check_action_condition fuel wh domain curr_action e bv with
    | none => simp [hc] at h
    | some res =>
      cases res with
      | error err => simp [hc] at h
      | ok bv0 =>
        simp only [hc] at h
        simp only []
        exact ih bv0 bv1 h

theorem error_of_returns_not_ok {α : Type} (x : Option (Except PddlException α))
    (hret : ∃ r, x = some r) (hno : ∀ r, x ≠ some (.ok r)) : ∃ e, x = some (.error e) := by
  obtain ⟨r, hr⟩ := hret
  cases r with
  | error e => exact ⟨e, hr⟩
  | ok v => exact absurd hr (hno v)

/-! ## Atoms in the place of conditions -/

/-- C9: an expression whose payload is an Atom `a` raises `PddlExpressionException`
with the message "Unexpected Atom in expression: " followed by `a`, whatever its
kind tag; so does the default expression.  An action whose precondition payload is
an Atom is rejected, with this error unless a parameter already raised a
`PddlTypeException`.  An action whose effect payload is an Atom is never accepted; it
is rejected with this error when the parameters and the precondition are accepted,
and with some error whenever the type declarations contain no cycle and the fuel
exceeds their number.  A BOOL expression with an Atom among its direct arguments is
never accepted; it raises this error when the arguments before the Atom are accepted,
and some error whenever the type declarations contain no cycle and the fuel exceeds
their number. -/
theorem atom_payload_raises (fuel : Nat) (wh : iterator_type) (domain : Domain)
    (curr_action : Action) (bound_vars : string_pairs_type) (type : ExpressionType) (a : Atom) :
    check_action_condition fuel wh domain curr_action (.mk type (.atom a)) bound_vars
      = some (.error (PddlExpressionException ("Unexpected Atom in expression: " ++ a) wh)) ∧
    check_action_condition fuel wh domain curr_action default_expression bound_vars
      = some (.error (PddlExpressionException "Unexpected Atom in expression: " wh)) ∧
    (∀ name params dur eff cb tb,
      ActionSemantics fuel wh ⟨name, params, dur, .mk type (.atom a), eff, cb, tb⟩ domain
          = some (.error (PddlExpressionException ("Unexpected Atom in expression: " ++ a) wh)) ∨
        ∃ msg, ActionSemantics fuel wh ⟨name, params, dur, .mk type (.atom a), eff, cb, tb⟩ domain
          = some (.error (PddlTypeException msg wh))) ∧
    (∀ name params dur pre cb tb r,
      ActionSemantics fuel wh ⟨name, params, dur, pre, .mk type (.atom a), cb, tb⟩ domain
        ≠ some (.ok r)) ∧
    (∀ function pre post r,
      check_action_condition fuel wh domain curr_action
          (.mk .BOOL (.predicate (.mk function (pre ++ .mk type (.atom a) :: post)))) bound_vars
        ≠ some (.ok r)) ∧
    (∀ name params dur pre cb tb bv,
      check_action_params wh (typing_required domain) domain params = .ok () →
      check_action_condition fuel wh domain
          ⟨name, params, dur, pre, .mk type (.atom a), cb, tb⟩ pre [] = some (.ok bv) →
      ActionSemantics fuel wh ⟨name, params, dur, pre, .mk type (.atom a), cb, tb⟩ domain
        = some (.error (PddlExpressionException ("Unexpected Atom in expression: " ++ a) wh))) ∧
    (acyclic_types domain → domain.types.length < fuel →
      ∀ name params dur pre cb tb,
        ∃ e, ActionSemantics fuel wh ⟨name, params, dur, pre, .mk type (.atom a), cb, tb⟩ domain
          = some (.error e)) ∧
    (∀ function pre post bv,
      check_sub_exprs fuel wh domain curr_action pre bound_vars = some (.ok bv) →
      check_action_condition fuel wh domain curr_action
          (.mk .BOOL (.predicate (.mk function (pre ++ .mk type (.atom a) :: post)))) bound_vars
        = some (.error (PddlExpressionException ("Unexpected Atom in expression: " ++ a) wh))) ∧
    (acyclic_types domain → domain.types.length < fuel →
      ∀ function pre post,
        ∃ e, check_action_condition fuel wh domain curr_action
            (.mk .BOOL (.predicate (.mk function (pre ++ .mk type (.atom a) :: post))))
            bound_vars
          = some (.error e)) := by
  have hnot_effect : ∀ name params dur pre cb tb r,
      ActionSemantics fuel wh ⟨name, params, dur, pre, .mk type (.atom a), cb, tb⟩ domain
        ≠ some (.ok r) := by
    intro name params dur pre cb tb r
    unfold ActionSemantics
    cases hp : check_action_params wh (typing_required domain) domain params with
    | error e => simp [hp]
    | ok u =>
      simp only [hp]
      cases hc : check_action_condition fuel wh domain
          ⟨name, params, dur, pre, .mk type (.atom a), cb, tb⟩ pre [] with
      | none => simp
      | some res =>
        cases res with
        | error err => simp
        | ok bv => simp [check_action_condition]
  have hnot_bool : ∀ function pre post r,
      check_action_condition fuel wh domain curr_action
          (.mk .BOOL (.predicate (.mk function (pre ++ .mk type (.atom a) :: post)))) bound_vars
        ≠ some (.ok r) := by
    intro function pre post r
    simp only [check_action_condition, check_action_predicate]
    exact check_sub_exprs_atom fuel wh domain curr_action type a post pre bound_vars r
  refine ⟨by simp [check_action_condition], by simp [check_action_condition, default_expression],
    ?_, hnot_effect, hnot_bool, ?_, ?_, ?_, ?_⟩
  · intro name params dur eff cb tb
    unfold ActionSemantics
    cases hp : check_action_params wh (typing_required domain) domain params with
    | error e =>
      obtain ⟨msg, rfl⟩ := check_action_params_error _ _ _ _ _ hp
      exact Or.inr ⟨msg, by simp [hp]⟩
    | ok u => exact Or.inl (by simp [hp, check_action_condition])
  · intro name params dur pre cb tb bv hp hc
    simp only [ActionSemantics, hp, hc, check_action_condition]
  · intro hac hfuel name params dur pre cb tb
    have hret : ∀ got expected, ∃ b, check_type fuel wh got expected domain = some b :=
      fun got expected => check_type_returns domain wh got expected fuel hac hfuel
    apply error_of_returns_not_ok _ _ (hnot_effect name params dur pre cb tb)
    unfold ActionSemantics
    cases hp : check_action_params wh (typing_required domain) domain params with
    | error e => exact ⟨_, rfl⟩
    | ok u =>
      simp only []
      obtain ⟨r, hr⟩ := check_action_condition_returns fuel wh domain
        ⟨name, params, dur, pre, .mk type (.atom a), cb, tb⟩ hret pre []
      cases r with
      | error err => simp only [hr]; exact ⟨_, rfl⟩
      | ok bv => simp only [hr, check_action_condition]; exact ⟨_, rfl⟩
  · intro function pre post bv hpre
    simp only [check_action_condition, check_action_predicate]
    exact check_sub_exprs_atom_after fuel wh domain curr_action type a post pre bound_vars bv hpre
  · intro hac hfuel function pre post
    have hret : ∀ got expected, ∃ b, check_type fuel wh got expected domain = some b :=
      fun got expected => check_type_returns domain wh got expected fuel hac hfuel
    exact error_of_returns_not_ok _
      (check_action_condition_returns fuel wh domain curr_action hret _ bound_vars)
      (hnot_bool function pre post)

theorem atom_payload_raises_witness :
    (∃ e, ActionSemantics 2 0
        ⟨"act", [], default_expression, forall_y, .mk .ATOM (.atom "x"), default_expression,
          default_expression⟩ dom_typed = some (.error e)) ∧
    ActionSemantics 2 0
        ⟨"act", [], default_expression, forall_y, .mk .ATOM (.atom "x"), default_expression,
          default_expression⟩ dom_typed
      = some (.error (PddlExpressionException ("Unexpected Atom in expression: " ++ "x") 0)) ∧
    (∃ e, check_action_condition 2 0 dom_typed action_atom_effect
        (.mk .BOOL (.predicate (.mk "and" ([forall_y] ++ .mk .ATOM (.atom "x") :: [p_of_y]))))
        [] = some (.error e)) :=
  ⟨(atom_payload_raises 2 0 dom_typed action_atom_effect [] .ATOM "x").2.2.2.2.2.2.1
      (acyclic_of_rank dom_typed (fun s => if s = "thing" then 0 else 1) (by decide))
      (by decide) "act" [] default_expression forall_y default_expression default_expression,
   (atom_payload_raises 2 0 dom_typed action_atom_effect [] .ATOM "x").2.2.2.2.2.1
      "act" [] default_expression forall_y default_expression default_expression
      [("y", "thing")] rfl rfl,
   (atom_payload_raises 2 0 dom_typed action_atom_effect [] .ATOM "x").2.2.2.2.2.2.2.2
      (acyclic_of_rank dom_typed (fun s => if s = "thing" then 0 else 1) (by decide))
      (by decide) "and" [forall_y] [p_of_y]⟩

/-! ## The entry points on a grammar that consumes the entire input -/

end Pddl
